import Mathlib

/-!
Shallow embedding of the YASS stabilizer tableau simulator
(src/stabilizer_simulator.rs, src/gates.rs) and verification of the
specification claims about it.

The Rust code works on fixed-size arrays `[bool; N]`; here rows carry
`List Bool` values and well-formedness (`simWF`) records that every bit
vector has length N.  Mutation through `&mut` references becomes explicit
state passing: a Rust method returning `Result<T, &'static str>` while
mutating `self` becomes a Lean function returning
`Except String T × StabilizerSimulator`, so that the state surviving an
error is part of the model.  Machine integers (`i32` in `rowsum`) become
`Int`; Rust's truncating remainder `%` is `Int.tmod`.
-/

/-- One generator row of the tableau: a Pauli string with a sign bit
(`TableauGeneratorRow` in the source). -/
structure TableauGeneratorRow where
  phase_is_negated : Bool
  x_bits : List Bool
  z_bits : List Bool
deriving Repr, DecidableEq

/-- Default row used for `List.getD` reads; the Rust code never reads out of
bounds (array indexing would panic), so the default never matters on
well-formed inputs. -/
def defaultRow : TableauGeneratorRow :=
  { phase_is_negated := false, x_bits := [], z_bits := [] }

/-- The gate enum from src/gates.rs.  Qubit indices are `u32` in the source
and are cast to `usize` before indexing; both are modelled as `Nat`. -/
inductive Gate where
  | H : Nat → Gate
  | S : Nat → Gate
  | Cx : Nat → Nat → Gate
deriving Repr, DecidableEq

/-- The simulator state: N stabilizer rows, N destabilizer rows, and the
random source.

Modelled from the spec: the `rand::rngs::StdRng` field (external `rand`
crate, not part of this repository) is abstracted as the stream of booleans
that `gen_bool(0.5)` will successively return; the stream is a deterministic
function of the 64-bit seed passed to `new`, so quantifying over streams
covers quantifying over seeds. -/
structure StabilizerSimulator where
  stabilizers : List TableauGeneratorRow
  destabilizers : List TableauGeneratorRow
  rand : List Bool
deriving Repr, DecidableEq

/-- Modelled from the spec: drawing one fair coin from the seeded PRNG
(`self.rand.gen_bool(0.5)` in the source) pops the head of the abstract
stream. -/
def gen_bool (r : List Bool) : Bool × List Bool :=
  (r.headD false, r.tail)

/-- `StabilizerSimulator::new`: stabilizer row i is Z on qubit i only,
destabilizer row i is X on qubit i only, all phases positive. -/
def StabilizerSimulator.new (N : Nat) (coins : List Bool) : StabilizerSimulator :=
  { stabilizers := (List.range N).map fun i =>
      { phase_is_negated := false
        x_bits := List.replicate N false
        z_bits := (List.replicate N false).set i true }
    destabilizers := (List.range N).map fun i =>
      { phase_is_negated := false
        x_bits := (List.replicate N false).set i true
        z_bits := List.replicate N false }
    rand := coins }

/-- The action of one gate on one generator row (the body of the per-row
loops in `StabilizerSimulator::apply_gate`). -/
def apply_gate_row (gate : Gate) (generator : TableauGeneratorRow) :
    TableauGeneratorRow :=
  match gate with
  | Gate.H qubit =>
    let generator_x_component := generator.x_bits.getD qubit false
    let generator_z_component := generator.z_bits.getD qubit false
    { phase_is_negated :=
        Bool.xor generator.phase_is_negated
          (generator_x_component && generator_z_component)
      x_bits := generator.x_bits.set qubit generator_z_component
      z_bits := generator.z_bits.set qubit generator_x_component }
  | Gate.S qubit =>
    let generator_x_component := generator.x_bits.getD qubit false
    let generator_z_component := generator.z_bits.getD qubit false
    { phase_is_negated :=
        Bool.xor generator.phase_is_negated
          (generator_x_component && generator_z_component)
      x_bits := generator.x_bits
      z_bits := generator.z_bits.set qubit
        (Bool.xor generator_z_component generator_x_component) }
  | Gate.Cx control target =>
    -- the source mutates x_bits[target] and z_bits[control] first and only
    -- then reads the four bits entering the phase computation
    let x_bits1 := generator.x_bits.set target
      (Bool.xor (generator.x_bits.getD target false)
        (generator.x_bits.getD control false))
    let z_bits1 := generator.z_bits.set control
      (Bool.xor (generator.z_bits.getD control false)
        (generator.z_bits.getD target false))
    let add_phase_flip := x_bits1.getD control false && z_bits1.getD target false
    let anticommutation_parity :=
      Bool.xor (Bool.xor (z_bits1.getD control false) (x_bits1.getD target false)) true
    { phase_is_negated :=
        Bool.xor generator.phase_is_negated
          (add_phase_flip && anticommutation_parity)
      x_bits := x_bits1
      z_bits := z_bits1 }

/-- `StabilizerSimulator::apply_gate`: the same per-row rule applied to all
N stabilizer rows and all N destabilizer rows; the random source is not
touched. -/
def apply_gate (s : StabilizerSimulator) (gate : Gate) : StabilizerSimulator :=
  { s with
    stabilizers := s.stabilizers.map (apply_gate_row gate)
    destabilizers := s.destabilizers.map (apply_gate_row gate) }

/-- `StabilizerSimulator::pauli_imaginary_phase_exponent`: the exponent of i
produced by multiplying the Pauli factor encoded by (x1,z1) by the one
encoded by (x2,z2). -/
def pauli_imaginary_phase_exponent (x1 z1 x2 z2 : Bool) : Int :=
  match x1, z1 with
  | false, false => 0
  | true, true => (if z2 then 1 else 0) - (if x2 then 1 else 0)
  | true, false => (if z2 then 1 else 0) * (2 * (if x2 then 1 else 0) - 1)
  | false, true => (1 - 2 * (if z2 then 1 else 0)) * (if x2 then 1 else 0)

/-- The `for j in 0..N` loop of `rowsum` accumulating the i-exponents; the
four length-N arrays are traversed in lockstep. -/
def exponent_sum_bits : List Bool → List Bool → List Bool → List Bool → Int
  | x1 :: xs1, z1 :: zs1, x2 :: xs2, z2 :: zs2 =>
      pauli_imaginary_phase_exponent x1 z1 x2 z2 + exponent_sum_bits xs1 zs1 xs2 zs2
  | _, _, _, _ => 0

/-- The i-exponent sum between `row_i` (supplying x1/z1) and `row_h`
(supplying x2/z2), as in the source's loop. -/
def exponent_sum (row_i row_h : TableauGeneratorRow) : Int :=
  exponent_sum_bits row_i.x_bits row_i.z_bits row_h.x_bits row_h.z_bits

/-- The static error string of `rowsum`. -/
def non_stabilizer_msg : String := "Non-stabilizer rowsum"

/-- The static error string of the unreachable branch of
`nondeterministic_measurement`. -/
def no_x_stabilizer_msg : String := "No stabilizer row with X component at qubit"

/-- The local variable `pauli_operator_phase` of `rowsum` after the
reduction step: the i-exponent sum plus twice each phase bit, reduced with
Rust's truncating remainder by 4. -/
def rowsum_phase (row_h row_i : TableauGeneratorRow) : Int :=
  (2 * (if row_h.phase_is_negated then 1 else 0) +
      2 * (if row_i.phase_is_negated then 1 else 0) +
    exponent_sum row_i row_h).tmod 4

/-- The row produced by the final XOR loop of a successful `rowsum`, with
the phase bit chosen by the branch taken. -/
def rowsum_xored (row_h row_i : TableauGeneratorRow) (ph : Bool) :
    TableauGeneratorRow :=
  { phase_is_negated := ph
    x_bits := List.zipWith Bool.xor row_h.x_bits row_i.x_bits
    z_bits := List.zipWith Bool.xor row_h.z_bits row_i.z_bits }

/-- `StabilizerSimulator::rowsum`: multiply `row_i` into `row_h`.  The
result pairs the `Result<(), &str>` with the final value of the `&mut
row_h` argument: on the error branch the row is returned untouched, exactly
as in the source where the bit-vector XOR loop sits after the early
return. -/
def rowsum (row_h row_i : TableauGeneratorRow) :
    Except String Unit × TableauGeneratorRow :=
  if rowsum_phase row_h row_i = 0 then
    (Except.ok (), rowsum_xored row_h row_i false)
  else if rowsum_phase row_h row_i = 2 then
    (Except.ok (), rowsum_xored row_h row_i true)
  else
    (Except.error non_stabilizer_msg, row_h)

/-- `StabilizerSimulator::find_x_stabilizer_index`. -/
def find_x_stabilizer_index (s : StabilizerSimulator) (qubit : Nat) : Option Nat :=
  s.stabilizers.findIdx? fun row => row.x_bits.getD qubit false

/-- `StabilizerSimulator::is_deterministic`. -/
def is_deterministic (s : StabilizerSimulator) (qubit : Nat) : Bool :=
  (find_x_stabilizer_index s qubit).isNone

/-- One loop iteration's first conditional rowsum (stabilizer row i gets
the cloned row p multiplied in). -/
def extract_step1 (qubit i : Nat) (p_stabilizer : TableauGeneratorRow)
    (s : StabilizerSimulator) : Except String Unit × StabilizerSimulator :=
  if (s.stabilizers.getD i defaultRow).x_bits.getD qubit false then
    ((rowsum (s.stabilizers.getD i defaultRow) p_stabilizer).1,
     { s with stabilizers :=
         s.stabilizers.set i (rowsum (s.stabilizers.getD i defaultRow) p_stabilizer).2 })
  else (Except.ok (), s)

/-- One loop iteration's second conditional rowsum.  The source rowsums into
destabilizer row p (not row i) whenever destabilizer row i has an X
component at the qubit. -/
def extract_step2 (qubit p i : Nat) (p_stabilizer : TableauGeneratorRow)
    (s : StabilizerSimulator) : Except String Unit × StabilizerSimulator :=
  if (s.destabilizers.getD i defaultRow).x_bits.getD qubit false then
    ((rowsum (s.destabilizers.getD p defaultRow) p_stabilizer).1,
     { s with destabilizers :=
         s.destabilizers.set p (rowsum (s.destabilizers.getD p defaultRow) p_stabilizer).2 })
  else (Except.ok (), s)

/-- The `for i in 0..N` loop of
`extract_stabilizer_p_after_flipping_preparing_other_stabilizers_to_expect_collapsed_state`,
over the list of remaining loop indices.  `p_stabilizer` is the clone of
stabilizer row p taken before the loop.  A failing rowsum aborts the loop
(the `?` operator) but earlier row updates persist in the state. -/
def extract_go (qubit p : Nat) (p_stabilizer : TableauGeneratorRow) :
    List Nat → StabilizerSimulator → Except String Unit × StabilizerSimulator
  | [], s => (Except.ok (), s)
  | i :: rest, s =>
    if i = p then extract_go qubit p p_stabilizer rest s
    else
      match extract_step1 qubit i p_stabilizer s with
      | (Except.error e, s1) => (Except.error e, s1)
      | (Except.ok _, s1) =>
        match extract_step2 qubit p i p_stabilizer s1 with
        | (Except.error e, s2) => (Except.error e, s2)
        | (Except.ok _, s2) => extract_go qubit p p_stabilizer rest s2

/-- `StabilizerSimulator::extract_stabilizer_p_after_flipping_preparing_other_stabilizers_to_expect_collapsed_state`. -/
def extract_stabilizer_p_after_flipping_preparing_other_stabilizers_to_expect_collapsed_state
    (N : Nat) (s : StabilizerSimulator) (qubit p : Nat) :
    Except String Unit × StabilizerSimulator :=
  extract_go qubit p (s.stabilizers.getD p defaultRow) (List.range N) s

/-- The replacement stabilizer row built during collapse: identity except Z
at the measured qubit, with the coin flip as phase (the source first
installs the row with all-false bits and then sets z_bits[qubit]). -/
def collapsed_row (N qubit : Nat) (coin : Bool) : TableauGeneratorRow :=
  { phase_is_negated := coin
    x_bits := List.replicate N false
    z_bits := (List.replicate N false).set qubit true }

/-- `StabilizerSimulator::collapse_p_stabilizer_and_return_measurement_outcome`:
replace stabilizer row p by the Z-at-qubit row with a random phase, move the
old row p into destabilizer row p, return the coin. -/
def collapse_p_stabilizer_and_return_measurement_outcome
    (N : Nat) (s : StabilizerSimulator) (p qubit : Nat) :
    Except String Bool × StabilizerSimulator :=
  (Except.ok (gen_bool s.rand).1,
   { stabilizers := s.stabilizers.set p (collapsed_row N qubit (gen_bool s.rand).1)
     destabilizers := s.destabilizers.set p (s.stabilizers.getD p defaultRow)
     rand := (gen_bool s.rand).2 })

/-- `StabilizerSimulator::nondeterministic_measurement`. -/
def nondeterministic_measurement (N : Nat) (s : StabilizerSimulator) (qubit : Nat) :
    Except String Bool × StabilizerSimulator :=
  match find_x_stabilizer_index s qubit with
  | none => (Except.error no_x_stabilizer_msg, s)
  | some p =>
    match
      extract_stabilizer_p_after_flipping_preparing_other_stabilizers_to_expect_collapsed_state
        N s qubit p with
    | (Except.error e, s1) => (Except.error e, s1)
    | (Except.ok _, s1) => collapse_p_stabilizer_and_return_measurement_outcome N s1 p qubit

/-- The accumulation loop of `determine_deterministic_measurement` over the
zipped (destabilizer, stabilizer) row pairs; only the scratch row is
updated, a failing rowsum aborts via `?`. -/
def det_go (qubit : Nat) :
    List (TableauGeneratorRow × TableauGeneratorRow) → TableauGeneratorRow →
      Except String TableauGeneratorRow
  | [], scratch => Except.ok scratch
  | pr :: rest, scratch =>
    if pr.1.x_bits.getD qubit false then
      match rowsum scratch pr.2 with
      | (Except.error e, _) => Except.error e
      | (Except.ok _, scratch1) => det_go qubit rest scratch1
    else det_go qubit rest scratch

/-- `StabilizerSimulator::determine_deterministic_measurement`: the tableau
itself is never mutated, so the input state is returned in both branches. -/
def determine_deterministic_measurement (N : Nat) (s : StabilizerSimulator)
    (qubit : Nat) : Except String Bool × StabilizerSimulator :=
  match det_go qubit (s.destabilizers.zip s.stabilizers)
      { phase_is_negated := false
        x_bits := List.replicate N false
        z_bits := List.replicate N false } with
  | Except.error e => (Except.error e, s)
  | Except.ok scratch => (Except.ok scratch.phase_is_negated, s)

/-- `StabilizerSimulator::measure`. -/
def StabilizerSimulator.measure (N : Nat) (s : StabilizerSimulator) (qubit : Nat) :
    Except String Bool × StabilizerSimulator :=
  if is_deterministic s qubit then determine_deterministic_measurement N s qubit
  else nondeterministic_measurement N s qubit

/-! ## Well-formedness and the tableau invariants -/

/-- A row of an N-qubit tableau carries N x-bits and N z-bits (`[bool; N]`
in the source). -/
def rowWF (N : Nat) (r : TableauGeneratorRow) : Prop :=
  r.x_bits.length = N ∧ r.z_bits.length = N

instance (N : Nat) (r : TableauGeneratorRow) : Decidable (rowWF N r) := by
  unfold rowWF; infer_instance

/-- Well-formedness of a simulator state for qubit count N. -/
def simWF (N : Nat) (s : StabilizerSimulator) : Prop :=
  s.stabilizers.length = N ∧ s.destabilizers.length = N ∧
    (∀ r ∈ s.stabilizers, rowWF N r) ∧ (∀ r ∈ s.destabilizers, rowWF N r)

instance (N : Nat) (s : StabilizerSimulator) : Decidable (simWF N s) := by
  unfold simWF; infer_instance

/-- The symplectic (commutation) parity of two Pauli strings given as bit
vectors: `true` means the operators anticommute, `false` that they
commute. -/
def symplectic_bits : List Bool → List Bool → List Bool → List Bool → Bool
  | x1 :: xs1, z1 :: zs1, x2 :: xs2, z2 :: zs2 =>
      Bool.xor (Bool.xor (x1 && z2) (z1 && x2)) (symplectic_bits xs1 zs1 xs2 zs2)
  | _, _, _, _ => false

/-- Anticommutation indicator of the Pauli operators represented by two
rows (phases are irrelevant to commutation). -/
def symplectic (a b : TableauGeneratorRow) : Bool :=
  symplectic_bits a.x_bits a.z_bits b.x_bits b.z_bits

/-- Invariant I1: stabilizer rows pairwise commute. -/
def I1 (s : StabilizerSimulator) : Prop :=
  ∀ i < s.stabilizers.length, ∀ j < s.stabilizers.length,
    symplectic (s.stabilizers.getD i defaultRow) (s.stabilizers.getD j defaultRow) = false

/-- Invariant I2: destabilizer rows pairwise commute. -/
def I2 (s : StabilizerSimulator) : Prop :=
  ∀ i < s.destabilizers.length, ∀ j < s.destabilizers.length,
    symplectic (s.destabilizers.getD i defaultRow) (s.destabilizers.getD j defaultRow) = false

/-- Invariant I3: destabilizer row i anticommutes with stabilizer row i and
commutes with every stabilizer row j ≠ i. -/
def I3 (s : StabilizerSimulator) : Prop :=
  ∀ i < s.destabilizers.length, ∀ j < s.stabilizers.length,
    symplectic (s.destabilizers.getD i defaultRow) (s.stabilizers.getD j defaultRow) =
      decide (i = j)

instance (s : StabilizerSimulator) : Decidable (I1 s) := by unfold I1; infer_instance

instance (s : StabilizerSimulator) : Decidable (I2 s) := by unfold I2; infer_instance

instance (s : StabilizerSimulator) : Decidable (I3 s) := by unfold I3; infer_instance

/-- All three tableau invariants at once. -/
def invariants (s : StabilizerSimulator) : Prop := I1 s ∧ I2 s ∧ I3 s

instance (s : StabilizerSimulator) : Decidable (invariants s) := by
  unfold invariants; infer_instance

/-! ## List helper lemmas -/

theorem getD_set_self {α : Type} (l : List α) (i : Nat) (v d : α) (h : i < l.length) :
    (l.set i v).getD i d = v := by
  induction l generalizing i with
  | nil => simp at h
  | cons a t ih =>
    cases i with
    | zero => rfl
    | succ n => simpa using ih n (by simpa using h)

theorem getD_set_ne {α : Type} (l : List α) (i j : Nat) (v d : α) (h : i ≠ j) :
    (l.set i v).getD j d = l.getD j d := by
  induction l generalizing i j with
  | nil => simp
  | cons a t ih =>
    cases i with
    | zero =>
      cases j with
      | zero => exact absurd rfl h
      | succ m => simp
    | succ n =>
      cases j with
      | zero => simp
      | succ m => simpa using ih n m (by omega)

theorem getD_map_lt {α β : Type} (f : α → β) (l : List α) (i : Nat) (d : β) (d' : α)
    (h : i < l.length) : (l.map f).getD i d = f (l.getD i d') := by
  induction l generalizing i with
  | nil => simp at h
  | cons a t ih =>
    cases i with
    | zero => rfl
    | succ n => simpa using ih n (by simpa using h)

theorem getD_zip {α β : Type} (l1 : List α) (l2 : List β) (i : Nat) (d1 : α) (d2 : β)
    (h1 : i < l1.length) (h2 : i < l2.length) :
    (l1.zip l2).getD i (d1, d2) = (l1.getD i d1, l2.getD i d2) := by
  induction l1 generalizing l2 i with
  | nil => simp at h1
  | cons a t ih =>
    cases l2 with
    | nil => simp at h2
    | cons b u =>
      cases i with
      | zero => rfl
      | succ n => simpa using ih u n (by simpa using h1) (by simpa using h2)

theorem getD_zipWith_xor (l1 l2 : List Bool) (i : Nat) (h : l1.length = l2.length) :
    (List.zipWith Bool.xor l1 l2).getD i false =
      Bool.xor (l1.getD i false) (l2.getD i false) := by
  induction l1 generalizing l2 i with
  | nil =>
    cases l2 with
    | nil => simp
    | cons b u => simp at h
  | cons a t ih =>
    cases l2 with
    | nil => simp at h
    | cons b u =>
      cases i with
      | zero => rfl
      | succ n => simpa using ih u n (by simpa using h)

theorem zipWith_xor_cancel (l1 l2 : List Bool) (h : l1.length = l2.length) :
    List.zipWith Bool.xor (List.zipWith Bool.xor l1 l2) l2 = l1 := by
  induction l1 generalizing l2 with
  | nil => simp
  | cons a t ih =>
    cases l2 with
    | nil => simp at h
    | cons b u =>
      simp only [List.zipWith_cons_cons]
      refine congrArg₂ (· :: ·) ?_ (ih u (by simpa using h))
      cases a <;> cases b <;> rfl

theorem getD_false_true_lt (l : List Bool) (i : Nat) (h : l.getD i false = true) :
    i < l.length := by
  by_contra hc
  rw [List.getD_eq_default _ _ (by omega)] at h
  exact Bool.false_ne_true h

theorem getD_replicate_false (n i : Nat) : (List.replicate n false).getD i false = false := by
  induction n generalizing i with
  | zero => simp
  | succ m ih =>
    cases i with
    | zero => rfl
    | succ k => simp only [List.replicate, List.getD_cons_succ]; exact ih k

/-! ## findIdx? helper lemmas -/

theorem findIdx?_none_of_all {α : Type} (p : α → Bool) (l : List α)
    (h : ∀ a ∈ l, p a = false) : ∀ i : Nat, l.findIdx? p i = none := by
  induction l with
  | nil => intro i; rfl
  | cons a t ih =>
    intro i
    rw [List.findIdx?_cons]
    rw [h a (by simp)]
    simp only [Bool.false_eq_true, if_false]
    exact ih (fun b hb => h b (by simp [hb])) (i + 1)

theorem findIdx?_some_spec {α : Type} (p : α → Bool) (d : α) :
    ∀ (l : List α) (i k : Nat), l.findIdx? p i = some k →
      ∃ j, k = i + j ∧ j < l.length ∧ p (l.getD j d) = true := by
  intro l
  induction l with
  | nil => intro i k h; exact absurd h (by simp [List.findIdx?])
  | cons a t ih =>
    intro i k h
    rw [List.findIdx?_cons] at h
    by_cases hp : p a = true
    · refine ⟨0, ?_, by simp, by simpa using hp⟩
      rw [hp] at h
      simp at h
      omega
    · rw [Bool.not_eq_true] at hp
      rw [hp] at h
      simp only [Bool.false_eq_true, if_false] at h
      obtain ⟨j, hj1, hj2, hj3⟩ := ih (i + 1) k h
      exact ⟨j + 1, by omega, by simp; omega, by simp only [List.getD_cons_succ]; exact hj3⟩

/-! ## xorRange: parity of a boolean function over an index range -/

def xorRange : Nat → (Nat → Bool) → Bool
  | 0, _ => false
  | n + 1, f => Bool.xor (f 0) (xorRange n (fun j => f (j + 1)))

theorem xorRange_congr (n : Nat) (f g : Nat → Bool) (h : ∀ j < n, f j = g j) :
    xorRange n f = xorRange n g := by
  induction n generalizing f g with
  | zero => rfl
  | succ m ih =>
    simp only [xorRange]
    rw [h 0 (by omega), ih _ _ (fun j hj => h (j + 1) (by omega))]

theorem xorRange_false (n : Nat) (f : Nat → Bool) (h : ∀ j < n, f j = false) :
    xorRange n f = false := by
  induction n generalizing f with
  | zero => rfl
  | succ m ih =>
    simp only [xorRange]
    rw [h 0 (by omega), ih _ (fun j hj => h (j + 1) (by omega))]
    rfl

theorem xorRange_xor (n : Nat) (f g : Nat → Bool) :
    xorRange n (fun j => Bool.xor (f j) (g j)) = Bool.xor (xorRange n f) (xorRange n g) := by
  induction n generalizing f g with
  | zero => rfl
  | succ m ih =>
    simp only [xorRange]
    rw [ih (fun j => f (j + 1)) (fun j => g (j + 1))]
    cases f 0 <;> cases g 0 <;>
      cases xorRange m (fun j => f (j + 1)) <;> cases xorRange m (fun j => g (j + 1)) <;> rfl

theorem xorRange_single (n q : Nat) (f : Nat → Bool) (hq : q < n)
    (h : ∀ j < n, j ≠ q → f j = false) : xorRange n f = f q := by
  induction n generalizing f q with
  | zero => omega
  | succ m ih =>
    simp only [xorRange]
    cases q with
    | zero =>
      rw [xorRange_false m _ (fun j hj => h (j + 1) (by omega) (by omega))]
      cases f 0 <;> rfl
    | succ r =>
      rw [h 0 (by omega) (by omega), ih r _ (by omega)
        (fun j hj hne => h (j + 1) (by omega) (by omega))]
      cases f (r + 1) <;> rfl

theorem xorRange_pair (n c t : Nat) (f : Nat → Bool) (hc : c < n) (ht : t < n)
    (hne : c ≠ t) (h : ∀ j < n, j ≠ c → j ≠ t → f j = false) :
    xorRange n f = Bool.xor (f c) (f t) := by
  induction n generalizing f c t with
  | zero => omega
  | succ m ih =>
    simp only [xorRange]
    cases c with
    | zero =>
      cases t with
      | zero => omega
      | succ r =>
        rw [xorRange_single m r _ (by omega)
          (fun j hj hne2 => h (j + 1) (by omega) (by omega) (by omega))]
    | succ r =>
      cases t with
      | zero =>
        rw [xorRange_single m r _ (by omega)
          (fun j hj hne2 => h (j + 1) (by omega) (by omega) (by omega))]
        cases f 0 <;> cases f (r + 1) <;> rfl
      | succ u =>
        rw [h 0 (by omega) (by omega) (by omega), ih r u _ (by omega) (by omega) (by omega)
          (fun j hj hne1 hne2 => h (j + 1) (by omega) (by omega) (by omega))]
        cases f (r + 1) <;> cases f (u + 1) <;> rfl

/-! ## Symplectic form lemmas -/

theorem symplectic_bits_eq_xorRange (n : Nat) :
    ∀ (xa za xb zb : List Bool), xa.length = n → za.length = n →
      xb.length = n → zb.length = n →
      symplectic_bits xa za xb zb = xorRange n (fun j =>
        Bool.xor (xa.getD j false && zb.getD j false)
          (za.getD j false && xb.getD j false)) := by
  induction n with
  | zero =>
    intro xa za xb zb hxa hza hxb hzb
    rw [List.length_eq_zero] at hxa hza hxb hzb
    subst hxa; subst hza; subst hxb; subst hzb
    rfl
  | succ m ih =>
    intro xa za xb zb hxa hza hxb hzb
    rcases xa with _ | ⟨x1, xs1⟩
    · simp at hxa
    rcases za with _ | ⟨z1, zs1⟩
    · simp at hza
    rcases xb with _ | ⟨x2, xs2⟩
    · simp at hxb
    rcases zb with _ | ⟨z2, zs2⟩
    · simp at hzb
    simp only [symplectic_bits, xorRange, List.getD_cons_zero, List.getD_cons_succ]
    rw [ih xs1 zs1 xs2 zs2 (by simpa using hxa) (by simpa using hza)
      (by simpa using hxb) (by simpa using hzb)]

theorem symplectic_eq_xorRange (N : Nat) (a b : TableauGeneratorRow)
    (ha : rowWF N a) (hb : rowWF N b) :
    symplectic a b = xorRange N (fun j =>
      Bool.xor (a.x_bits.getD j false && b.z_bits.getD j false)
        (a.z_bits.getD j false && b.x_bits.getD j false)) :=
  symplectic_bits_eq_xorRange N _ _ _ _ ha.1 ha.2 hb.1 hb.2

theorem symplectic_self (N : Nat) (a : TableauGeneratorRow) (ha : rowWF N a) :
    symplectic a a = false := by
  rw [symplectic_eq_xorRange N a a ha ha]
  refine xorRange_false N _ (fun j hj => ?_)
  rw [Bool.and_comm]
  exact Bool.xor_self _

theorem symplectic_symm (N : Nat) (a b : TableauGeneratorRow)
    (ha : rowWF N a) (hb : rowWF N b) : symplectic a b = symplectic b a := by
  rw [symplectic_eq_xorRange N a b ha hb, symplectic_eq_xorRange N b a hb ha]
  refine xorRange_congr N _ _ (fun j hj => ?_)
  cases a.x_bits.getD j false <;> cases a.z_bits.getD j false <;>
    cases b.x_bits.getD j false <;> cases b.z_bits.getD j false <;> rfl

theorem bool_bilinear_term (a b c d e f : Bool) :
    Bool.xor ((Bool.xor a b) && c) ((Bool.xor d e) && f) =
      Bool.xor (Bool.xor (a && c) (d && f)) (Bool.xor (b && c) (e && f)) := by
  cases a <;> cases b <;> cases c <;> cases d <;> cases e <;> cases f <;> rfl

theorem symplectic_xor_left (N : Nat) (r r0 ps y : TableauGeneratorRow)
    (h0 : rowWF N r0) (hps : rowWF N ps) (hy : rowWF N y)
    (hx : r.x_bits = List.zipWith Bool.xor r0.x_bits ps.x_bits)
    (hz : r.z_bits = List.zipWith Bool.xor r0.z_bits ps.z_bits) :
    symplectic r y = Bool.xor (symplectic r0 y) (symplectic ps y) := by
  have hr : rowWF N r := by
    constructor
    · rw [hx, List.length_zipWith, h0.1, hps.1, Nat.min_self]
    · rw [hz, List.length_zipWith, h0.2, hps.2, Nat.min_self]
  rw [symplectic_eq_xorRange N r y hr hy, symplectic_eq_xorRange N r0 y h0 hy,
    symplectic_eq_xorRange N ps y hps hy, ← xorRange_xor]
  refine xorRange_congr N _ _ (fun j hj => ?_)
  rw [hx, hz, getD_zipWith_xor _ _ _ (by rw [h0.1, hps.1]),
    getD_zipWith_xor _ _ _ (by rw [h0.2, hps.2])]
  exact bool_bilinear_term _ _ _ _ _ _

/-! ## Parity of the i-exponent sum -/

theorem exponent_parity_head (x1 z1 x2 z2 : Bool) :
    (pauli_imaginary_phase_exponent x1 z1 x2 z2) % 2 =
      (if Bool.xor (x1 && z2) (z1 && x2) then 1 else 0) := by
  cases x1 <;> cases z1 <;> cases x2 <;> cases z2 <;> decide

theorem exponent_sum_bits_parity :
    ∀ (xa za xb zb : List Bool),
      (exponent_sum_bits xa za xb zb) % 2 =
        (if symplectic_bits xa za xb zb then 1 else 0) := by
  intro xa
  induction xa with
  | nil => intro za xb zb; rfl
  | cons x1 xs1 ih =>
    intro za xb zb
    rcases za with _ | ⟨z1, zs1⟩
    · rfl
    rcases xb with _ | ⟨x2, xs2⟩
    · rfl
    rcases zb with _ | ⟨z2, zs2⟩
    · rfl
    have key : ∀ (A B : Bool) (e r : Int), e % 2 = (if A then 1 else 0) →
        r % 2 = (if B then 1 else 0) →
        (e + r) % 2 = (if Bool.xor A B then 1 else 0) := by
      intro A B e r h1 h2
      cases A <;> cases B <;> simp at h1 h2 ⊢ <;> omega
    simp only [exponent_sum_bits, symplectic_bits]
    exact key _ _ _ _ (exponent_parity_head x1 z1 x2 z2) (ih zs1 xs2 zs2)

/-! ## rowsum lemmas -/

theorem tmod4_of_odd (t : Int) (h : t % 2 = 1) : t.tmod 4 ≠ 0 ∧ t.tmod 4 ≠ 2 := by
  have h2 := Int.tmod_add_tdiv t 4
  generalize t.tdiv 4 = q at h2
  generalize t.tmod 4 = a at h2 ⊢
  omega

theorem rowsum_err_of_anticommute (row_h row_i : TableauGeneratorRow)
    (h : symplectic row_i row_h = true) :
    rowsum row_h row_i = (Except.error non_stabilizer_msg, row_h) := by
  have hp := exponent_sum_bits_parity row_i.x_bits row_i.z_bits row_h.x_bits row_h.z_bits
  have hsym : symplectic_bits row_i.x_bits row_i.z_bits row_h.x_bits row_h.z_bits = true := h
  rw [hsym, if_pos rfl] at hp
  have hodd : (2 * (if row_h.phase_is_negated then (1 : Int) else 0) +
      2 * (if row_i.phase_is_negated then (1 : Int) else 0) +
      exponent_sum row_i row_h) % 2 = 1 := by
    unfold exponent_sum
    omega
  have hne := tmod4_of_odd _ hodd
  unfold rowsum
  rw [if_neg (by exact hne.1), if_neg (by exact hne.2)]

theorem rowsum_error_frame (row_h row_i : TableauGeneratorRow) (e : String)
    (h : (rowsum row_h row_i).1 = Except.error e) :
    (rowsum row_h row_i).2 = row_h ∧ e = non_stabilizer_msg := by
  unfold rowsum at h ⊢
  by_cases h0 : rowsum_phase row_h row_i = 0
  · rw [if_pos h0] at h
    exact absurd h (by simp)
  · rw [if_neg h0] at h ⊢
    by_cases h2 : rowsum_phase row_h row_i = 2
    · rw [if_pos h2] at h
      exact absurd h (by simp)
    · rw [if_neg h2] at h ⊢
      injection h with h1
      exact ⟨rfl, h1.symm⟩

theorem rowsum_ok_bits (row_h row_i : TableauGeneratorRow)
    (h : (rowsum row_h row_i).1 = Except.ok ()) :
    (rowsum row_h row_i).2.x_bits = List.zipWith Bool.xor row_h.x_bits row_i.x_bits ∧
      (rowsum row_h row_i).2.z_bits = List.zipWith Bool.xor row_h.z_bits row_i.z_bits := by
  unfold rowsum at h ⊢
  by_cases h0 : rowsum_phase row_h row_i = 0
  · rw [if_pos h0]
    exact ⟨rfl, rfl⟩
  · rw [if_neg h0] at h ⊢
    by_cases h2 : rowsum_phase row_h row_i = 2
    · rw [if_pos h2]
      exact ⟨rfl, rfl⟩
    · rw [if_neg h2] at h
      exact absurd h (by simp)

/-! ## Gate lemmas -/

/-- In-range condition for a gate on an N-qubit simulator: index arguments
below N (array indexing in the source panics otherwise), and distinct
control and target for CNOT (the physical gate exists only for distinct
qubits; the source silently zeroes components when they coincide). -/
def gateWF (N : Nat) : Gate → Prop
  | Gate.H q => q < N
  | Gate.S q => q < N
  | Gate.Cx c t => c < N ∧ t < N ∧ c ≠ t

instance (N : Nat) (g : Gate) : Decidable (gateWF N g) := by
  cases g <;> (unfold gateWF; infer_instance)

theorem rowWF_apply_gate_row (N : Nat) (g : Gate) (r : TableauGeneratorRow)
    (h : rowWF N r) : rowWF N (apply_gate_row g r) := by
  cases g <;> exact ⟨by simp [apply_gate_row, List.length_set, h.1],
    by simp [apply_gate_row, List.length_set, h.2]⟩

theorem set_getD_self {α : Type} (l : List α) (i : Nat) (d : α) (h : i < l.length) :
    l.set i (l.getD i d) = l := by
  induction l generalizing i with
  | nil => simp at h
  | cons a t ih =>
    cases i with
    | zero => rfl
    | succ n =>
      simp only [List.set_cons_succ, List.getD_cons_succ]
      rw [ih n (by simpa using h)]

theorem bool_xor_eq_of_xor_false (x y : Bool) (h : Bool.xor x y = false) : x = y := by
  cases x <;> cases y <;> simp_all

theorem symplectic_apply_gate_row (N : Nat) (g : Gate) (hg : gateWF N g)
    (a b : TableauGeneratorRow) (ha : rowWF N a) (hb : rowWF N b) :
    symplectic (apply_gate_row g a) (apply_gate_row g b) = symplectic a b := by
  have ha' := rowWF_apply_gate_row N g a ha
  have hb' := rowWF_apply_gate_row N g b hb
  rw [symplectic_eq_xorRange N _ _ ha' hb', symplectic_eq_xorRange N a b ha hb]
  cases g with
  | H q =>
    refine xorRange_congr N _ _ (fun j hj => ?_)
    simp only [apply_gate_row]
    by_cases hjq : j = q
    · subst hjq
      rw [getD_set_self _ _ _ _ (by rw [ha.1]; exact hg),
        getD_set_self _ _ _ _ (by rw [hb.2]; exact hg),
        getD_set_self _ _ _ _ (by rw [ha.2]; exact hg),
        getD_set_self _ _ _ _ (by rw [hb.1]; exact hg)]
      cases a.x_bits.getD j false <;> cases a.z_bits.getD j false <;>
        cases b.x_bits.getD j false <;> cases b.z_bits.getD j false <;> rfl
    · rw [getD_set_ne _ _ _ _ _ (fun hh => hjq hh.symm),
        getD_set_ne _ _ _ _ _ (fun hh => hjq hh.symm),
        getD_set_ne _ _ _ _ _ (fun hh => hjq hh.symm),
        getD_set_ne _ _ _ _ _ (fun hh => hjq hh.symm)]
  | S q =>
    refine xorRange_congr N _ _ (fun j hj => ?_)
    simp only [apply_gate_row]
    by_cases hjq : j = q
    · subst hjq
      rw [getD_set_self _ _ _ _ (by rw [hb.2]; exact hg),
        getD_set_self _ _ _ _ (by rw [ha.2]; exact hg)]
      cases a.x_bits.getD j false <;> cases a.z_bits.getD j false <;>
        cases b.x_bits.getD j false <;> cases b.z_bits.getD j false <;> rfl
    · rw [getD_set_ne _ _ _ _ _ (fun hh => hjq hh.symm),
        getD_set_ne _ _ _ _ _ (fun hh => hjq hh.symm)]
  | Cx c t =>
    obtain ⟨hc, ht, hct⟩ := hg
    refine bool_xor_eq_of_xor_false _ _ ?_
    rw [← xorRange_xor]
    rw [xorRange_pair N c t _ hc ht hct (by
      intro j hj hjc hjt
      simp only [apply_gate_row]
      rw [getD_set_ne _ _ _ _ _ (fun hh => hjt hh.symm),
        getD_set_ne _ _ _ _ _ (fun hh => hjc hh.symm),
        getD_set_ne _ _ _ _ _ (fun hh => hjc hh.symm),
        getD_set_ne _ _ _ _ _ (fun hh => hjt hh.symm)]
      exact Bool.xor_self _)]
    simp only [apply_gate_row]
    rw [getD_set_ne _ _ _ _ _ (fun hh => hct hh.symm),
      getD_set_self _ _ _ _ (by rw [hb.2]; exact hc),
      getD_set_self _ _ _ _ (by rw [ha.2]; exact hc),
      getD_set_ne _ _ _ _ _ (fun hh => hct hh.symm),
      getD_set_self _ _ _ _ (by rw [ha.1]; exact ht),
      getD_set_ne _ _ _ _ _ (fun hh => hct hh),
      getD_set_ne _ _ _ _ _ (fun hh => hct hh),
      getD_set_self _ _ _ _ (by rw [hb.1]; exact ht)]
    cases a.x_bits.getD c false <;> cases a.x_bits.getD t false <;>
      cases a.z_bits.getD c false <;> cases a.z_bits.getD t false <;>
      cases b.x_bits.getD c false <;> cases b.x_bits.getD t false <;>
      cases b.z_bits.getD c false <;> cases b.z_bits.getD t false <;> rfl

theorem rowWF_getD (N : Nat) (l : List TableauGeneratorRow) (i : Nat)
    (h : ∀ r ∈ l, rowWF N r) (hi : i < l.length) :
    rowWF N (l.getD i defaultRow) := by
  rw [List.getD_eq_getElem l defaultRow hi]
  exact h _ (List.getElem_mem hi)

theorem simWF_apply_gate (N : Nat) (s : StabilizerSimulator) (g : Gate)
    (h : simWF N s) : simWF N (apply_gate s g) := by
  obtain ⟨h1, h2, h3, h4⟩ := h
  refine ⟨by simp only [apply_gate, List.length_map]; exact h1,
    by simp only [apply_gate, List.length_map]; exact h2, ?_, ?_⟩
  · intro r hr
    rw [apply_gate] at hr
    simp only [List.mem_map] at hr
    obtain ⟨a, haa, rfl⟩ := hr
    exact rowWF_apply_gate_row N g a (h3 a haa)
  · intro r hr
    rw [apply_gate] at hr
    simp only [List.mem_map] at hr
    obtain ⟨a, haa, rfl⟩ := hr
    exact rowWF_apply_gate_row N g a (h4 a haa)

theorem invariants_apply_gate (N : Nat) (s : StabilizerSimulator) (g : Gate)
    (hWF : simWF N s) (hg : gateWF N g) (hinv : invariants s) :
    invariants (apply_gate s g) := by
  obtain ⟨hI1, hI2, hI3⟩ := hinv
  obtain ⟨hsl, hdl, hsr, hdr⟩ := hWF
  have hmap : ∀ (l : List TableauGeneratorRow) (i : Nat), i < l.length →
      (l.map (apply_gate_row g)).getD i defaultRow =
        apply_gate_row g (l.getD i defaultRow) :=
    fun l i hi => getD_map_lt _ l i _ defaultRow hi
  refine ⟨?_, ?_, ?_⟩
  · intro i hi j hj
    simp only [apply_gate, List.length_map] at hi hj ⊢
    rw [hmap _ _ hi, hmap _ _ hj,
      symplectic_apply_gate_row N g hg _ _ (rowWF_getD N _ i hsr hi)
        (rowWF_getD N _ j hsr hj)]
    exact hI1 i hi j hj
  · intro i hi j hj
    simp only [apply_gate, List.length_map] at hi hj ⊢
    rw [hmap _ _ hi, hmap _ _ hj,
      symplectic_apply_gate_row N g hg _ _ (rowWF_getD N _ i hdr hi)
        (rowWF_getD N _ j hdr hj)]
    exact hI2 i hi j hj
  · intro i hi j hj
    simp only [apply_gate, List.length_map] at hi hj ⊢
    rw [hmap _ _ hi, hmap _ _ hj,
      symplectic_apply_gate_row N g hg _ _ (rowWF_getD N _ i hdr hi)
        (rowWF_getD N _ j hsr hj)]
    exact hI3 i hi j hj

/-! ## The H gate is an involution on rows -/

theorem apply_H_H_row (N q : Nat) (hq : q < N) (r : TableauGeneratorRow)
    (hr : rowWF N r) : apply_gate_row (Gate.H q) (apply_gate_row (Gate.H q) r) = r := by
  obtain ⟨ph, x, z⟩ := r
  obtain ⟨hx, hz⟩ := hr
  simp only at hx hz
  simp only [apply_gate_row, TableauGeneratorRow.mk.injEq]
  rw [getD_set_self _ _ _ _ (by rw [hx]; exact hq),
    getD_set_self _ _ _ _ (by rw [hz]; exact hq)]
  refine ⟨?_, ?_, ?_⟩
  · cases ph <;> cases hxv : x.getD q false <;> cases hzv : z.getD q false <;> rfl
  · rw [List.set_set, set_getD_self _ _ _ (by rw [hx]; exact hq)]
  · rw [List.set_set, set_getD_self _ _ _ (by rw [hz]; exact hq)]

theorem map_involution {α : Type} (f : α → α) :
    ∀ (l : List α), (∀ a ∈ l, f (f a) = a) → (l.map f).map f = l := by
  intro l
  induction l with
  | nil => intro _; rfl
  | cons a t ih =>
    intro h
    simp only [List.map_cons]
    rw [h a (by simp), ih (fun b hb => h b (by simp [hb]))]

/-! ## The CNOT phase rule in terms of pre-update bits -/

theorem cx_phase_pre_update (N c t : Nat) (hc : c < N) (ht : t < N) (hne : c ≠ t)
    (r : TableauGeneratorRow) (hr : rowWF N r) :
    (apply_gate_row (Gate.Cx c t) r).phase_is_negated =
      Bool.xor r.phase_is_negated
        (r.x_bits.getD c false && r.z_bits.getD t false &&
          Bool.xor (Bool.xor (r.z_bits.getD c false) (r.x_bits.getD t false)) true) := by
  simp only [apply_gate_row]
  rw [getD_set_ne _ _ _ _ _ (fun hh => hne hh.symm),
    getD_set_ne _ _ _ _ _ (fun hh => hne hh),
    getD_set_self _ _ _ _ (by rw [hr.2]; exact hc),
    getD_set_self _ _ _ _ (by rw [hr.1]; exact ht)]
  cases r.phase_is_negated <;> cases r.x_bits.getD c false <;>
    cases r.x_bits.getD t false <;> cases r.z_bits.getD c false <;>
    cases r.z_bits.getD t false <;> rfl

/-! ## Deterministic path: frame and error lemmas -/

theorem is_deterministic_of_no_x (s : StabilizerSimulator) (qubit : Nat)
    (h : ∀ r ∈ s.stabilizers, r.x_bits.getD qubit false = false) :
    is_deterministic s qubit = true := by
  unfold is_deterministic find_x_stabilizer_index
  rw [findIdx?_none_of_all _ _ h 0]
  rfl

theorem measure_deterministic_frame (N : Nat) (s : StabilizerSimulator) (qubit : Nat)
    (h : is_deterministic s qubit = true) :
    (StabilizerSimulator.measure N s qubit).2 = s ∧
      StabilizerSimulator.measure N s qubit =
        determine_deterministic_measurement N s qubit := by
  unfold StabilizerSimulator.measure
  rw [if_pos h]
  refine ⟨?_, rfl⟩
  unfold determine_deterministic_measurement
  split <;> rfl

theorem det_go_error_msg (qubit : Nat) :
    ∀ (l : List (TableauGeneratorRow × TableauGeneratorRow))
      (scratch : TableauGeneratorRow) (e : String),
      det_go qubit l scratch = Except.error e → e = non_stabilizer_msg := by
  intro l
  induction l with
  | nil => intro scratch e h; exact absurd h (by simp [det_go])
  | cons pr rest ih =>
    intro scratch e h
    simp only [det_go] at h
    by_cases hc : pr.1.x_bits.getD qubit false = true
    · rw [if_pos hc] at h
      split at h
      · rename_i e2 snd heq
        injection h with h1
        rw [← h1]
        exact (rowsum_error_frame _ _ _ (by rw [heq])).2
      · rename_i u scratch1 heq
        exact ih _ _ h
    · rw [if_neg hc] at h
      exact ih _ _ h

/-! ## Random-source bookkeeping of the nondeterministic path -/

theorem extract_step1_rand (qubit i : Nat) (ps : TableauGeneratorRow)
    (s : StabilizerSimulator) : (extract_step1 qubit i ps s).2.rand = s.rand := by
  unfold extract_step1; split <;> rfl

theorem extract_step2_rand (qubit p i : Nat) (ps : TableauGeneratorRow)
    (s : StabilizerSimulator) : (extract_step2 qubit p i ps s).2.rand = s.rand := by
  unfold extract_step2; split <;> rfl

theorem extract_go_cons_skip (qubit p : Nat) (ps : TableauGeneratorRow)
    (i : Nat) (rest : List Nat) (s : StabilizerSimulator) (hip : i = p) :
    extract_go qubit p ps (i :: rest) s = extract_go qubit p ps rest s := by
  simp only [extract_go]; rw [if_pos hip]

theorem extract_go_cons_err1 (qubit p : Nat) (ps : TableauGeneratorRow)
    (i : Nat) (rest : List Nat) (s s1 : StabilizerSimulator) (e : String)
    (hip : ¬ i = p) (h1 : extract_step1 qubit i ps s = (Except.error e, s1)) :
    extract_go qubit p ps (i :: rest) s = (Except.error e, s1) := by
  simp only [extract_go]; rw [if_neg hip, h1]

theorem extract_go_cons_ok1 (qubit p : Nat) (ps : TableauGeneratorRow)
    (i : Nat) (rest : List Nat) (s s1 : StabilizerSimulator) (u : Unit)
    (hip : ¬ i = p) (h1 : extract_step1 qubit i ps s = (Except.ok u, s1)) :
    extract_go qubit p ps (i :: rest) s =
      match extract_step2 qubit p i ps s1 with
      | (Except.error e, s2) => (Except.error e, s2)
      | (Except.ok _, s2) => extract_go qubit p ps rest s2 := by
  simp only [extract_go]; rw [if_neg hip, h1]

theorem extract_go_cons_err2 (qubit p : Nat) (ps : TableauGeneratorRow)
    (i : Nat) (rest : List Nat) (s s1 s2 : StabilizerSimulator) (u : Unit)
    (e : String) (hip : ¬ i = p)
    (h1 : extract_step1 qubit i ps s = (Except.ok u, s1))
    (h2 : extract_step2 qubit p i ps s1 = (Except.error e, s2)) :
    extract_go qubit p ps (i :: rest) s = (Except.error e, s2) := by
  rw [extract_go_cons_ok1 qubit p ps i rest s s1 u hip h1, h2]

theorem extract_go_cons_ok2 (qubit p : Nat) (ps : TableauGeneratorRow)
    (i : Nat) (rest : List Nat) (s s1 s2 : StabilizerSimulator) (u u2 : Unit)
    (hip : ¬ i = p)
    (h1 : extract_step1 qubit i ps s = (Except.ok u, s1))
    (h2 : extract_step2 qubit p i ps s1 = (Except.ok u2, s2)) :
    extract_go qubit p ps (i :: rest) s = extract_go qubit p ps rest s2 := by
  rw [extract_go_cons_ok1 qubit p ps i rest s s1 u hip h1, h2]

theorem extract_go_rand (qubit p : Nat) (ps : TableauGeneratorRow) :
    ∀ (l : List Nat) (s : StabilizerSimulator),
      ((extract_go qubit p ps l s).2).rand = s.rand := by
  intro l
  induction l with
  | nil => intro s; rfl
  | cons i rest ih =>
    intro s
    by_cases hip : i = p
    · rw [extract_go_cons_skip qubit p ps i rest s hip]; exact ih s
    · rcases h1 : extract_step1 qubit i ps s with ⟨r1, s1⟩
      have hr1 : s1.rand = s.rand := by
        have := extract_step1_rand qubit i ps s
        rw [h1] at this; exact this
      rcases r1 with e | u
      · rw [extract_go_cons_err1 qubit p ps i rest s s1 e hip h1]; exact hr1
      · rcases h2 : extract_step2 qubit p i ps s1 with ⟨r2, s2⟩
        have hr2 : s2.rand = s1.rand := by
          have := extract_step2_rand qubit p i ps s1
          rw [h2] at this; exact this
        rcases r2 with e | u2
        · rw [extract_go_cons_err2 qubit p ps i rest s s1 s2 u e hip h1 h2]
          exact hr2.trans hr1
        · rw [extract_go_cons_ok2 qubit p ps i rest s s1 s2 u u2 hip h1 h2]
          exact (ih s2).trans (hr2.trans hr1)

/-! ## Error messages reachable through the measurement paths -/

theorem extract_step1_error_msg (qubit i : Nat) (ps : TableauGeneratorRow)
    (s : StabilizerSimulator) (e : String)
    (h : (extract_step1 qubit i ps s).1 = Except.error e) : e = non_stabilizer_msg := by
  unfold extract_step1 at h
  split at h
  · exact (rowsum_error_frame _ _ _ h).2
  · exact absurd h (by simp)

theorem extract_step2_error_msg (qubit p i : Nat) (ps : TableauGeneratorRow)
    (s : StabilizerSimulator) (e : String)
    (h : (extract_step2 qubit p i ps s).1 = Except.error e) : e = non_stabilizer_msg := by
  unfold extract_step2 at h
  split at h
  · exact (rowsum_error_frame _ _ _ h).2
  · exact absurd h (by simp)

theorem extract_go_error_msg (qubit p : Nat) (ps : TableauGeneratorRow) :
    ∀ (l : List Nat) (s : StabilizerSimulator) (e : String),
      (extract_go qubit p ps l s).1 = Except.error e → e = non_stabilizer_msg := by
  intro l
  induction l with
  | nil => intro s e h; exact absurd h (by simp [extract_go])
  | cons i rest ih =>
    intro s e h
    by_cases hip : i = p
    · rw [extract_go_cons_skip qubit p ps i rest s hip] at h
      exact ih s e h
    · rcases h1 : extract_step1 qubit i ps s with ⟨r1, s1⟩
      rcases r1 with e1 | u
      · rw [extract_go_cons_err1 qubit p ps i rest s s1 e1 hip h1] at h
        have hh : Except.error (ε := String) (α := Unit) e1 = Except.error e := h
        injection hh with hh2
        rw [← hh2]
        exact extract_step1_error_msg qubit i ps s e1 (by rw [h1])
      · rcases h2 : extract_step2 qubit p i ps s1 with ⟨r2, s2⟩
        rcases r2 with e2 | u2
        · rw [extract_go_cons_err2 qubit p ps i rest s s1 s2 u e2 hip h1 h2] at h
          have hh : Except.error (ε := String) (α := Unit) e2 = Except.error e := h
          injection hh with hh2
          rw [← hh2]
          exact extract_step2_error_msg qubit p i ps s1 e2 (by rw [h2])
        · rw [extract_go_cons_ok2 qubit p ps i rest s s1 s2 u u2 hip h1 h2] at h
          exact ih s2 e h

theorem measure_error_msg (N : Nat) (s : StabilizerSimulator) (qubit : Nat) (e : String)
    (h : (StabilizerSimulator.measure N s qubit).1 = Except.error e) :
    e = non_stabilizer_msg := by
  unfold StabilizerSimulator.measure at h
  by_cases hd : is_deterministic s qubit = true
  · rw [if_pos hd] at h
    unfold determine_deterministic_measurement at h
    split at h
    · rename_i e2 heq
      have hh : Except.error (ε := String) (α := Bool) e2 = Except.error e := h
      injection hh with hh2
      rw [← hh2]
      exact det_go_error_msg qubit _ _ e2 heq
    · exact absurd h (by simp)
  · rw [if_neg hd] at h
    unfold nondeterministic_measurement at h
    rcases hfind : find_x_stabilizer_index s qubit with _ | p
    · exact absurd (by unfold is_deterministic; rw [hfind]; rfl) hd
    · rw [hfind] at h
      have h2 : (match
          extract_stabilizer_p_after_flipping_preparing_other_stabilizers_to_expect_collapsed_state
            N s qubit p with
        | (Except.error e, s1) => (Except.error e, s1)
        | (Except.ok _, s1) =>
          collapse_p_stabilizer_and_return_measurement_outcome N s1 p qubit).1 =
          Except.error e := h
      rcases hext :
        extract_stabilizer_p_after_flipping_preparing_other_stabilizers_to_expect_collapsed_state
          N s qubit p with ⟨r1, s1⟩
      rw [hext] at h2
      rcases r1 with e1 | u
      · have hh : Except.error (ε := String) (α := Bool) e1 = Except.error e := h2
        injection hh with hh2
        rw [← hh2]
        exact extract_go_error_msg qubit p _ (List.range N) s e1 (by
          unfold extract_stabilizer_p_after_flipping_preparing_other_stabilizers_to_expect_collapsed_state
            at hext
          rw [hext])
      · exact absurd h2 (by simp [collapse_p_stabilizer_and_return_measurement_outcome])

/-! ## The collapsed row and its commutation behaviour -/

theorem rowWF_collapsed (N qubit : Nat) (coin : Bool) :
    rowWF N (collapsed_row N qubit coin) := by
  constructor <;> simp [collapsed_row, List.length_set, List.length_replicate]

theorem collapsed_z_getD (N qubit j : Nat) (coin : Bool) (hq : qubit < N) :
    (collapsed_row N qubit coin).z_bits.getD j false = decide (j = qubit) := by
  by_cases h : j = qubit
  · subst h
    simp only [collapsed_row]
    rw [getD_set_self _ _ _ _ (by simp only [List.length_replicate]; exact hq)]
    simp
  · simp only [collapsed_row]
    rw [getD_set_ne _ _ _ _ _ (fun hh => h hh.symm), getD_replicate_false]
    simp [h]

theorem symplectic_collapsed_right (N qubit : Nat) (hq : qubit < N) (coin : Bool)
    (r : TableauGeneratorRow) (hr : rowWF N r) :
    symplectic r (collapsed_row N qubit coin) = r.x_bits.getD qubit false := by
  rw [symplectic_eq_xorRange N r _ hr (rowWF_collapsed N qubit coin)]
  rw [xorRange_single N qubit _ hq (by
    intro j hj hjq
    rw [collapsed_z_getD N qubit j coin hq]
    simp only [collapsed_row]
    rw [getD_replicate_false]
    simp [hjq])]
  rw [collapsed_z_getD N qubit qubit coin hq]
  simp only [collapsed_row]
  rw [getD_replicate_false]
  simp

/-! ## The extract loop on success: induction invariant -/

/-- Relation between a stabilizer row's current bit vectors and its value at
loop entry: either untouched, or with the cloned row p XORed in (a further
successful rowsum with the same row cancels back to untouched, so these two
cases is all that can occur). -/
def stabRel (ps r0 r : TableauGeneratorRow) : Prop :=
  (r.x_bits = r0.x_bits ∧ r.z_bits = r0.z_bits) ∨
  (r.x_bits = List.zipWith Bool.xor r0.x_bits ps.x_bits ∧
   r.z_bits = List.zipWith Bool.xor r0.z_bits ps.z_bits)

/-- State invariant maintained by the extract loop relative to the entry
state s0: destabilizers and the random source are untouched, stabilizer
rows are related by stabRel, and row p itself is untouched. -/
def extractInv (p : Nat) (ps : TableauGeneratorRow) (s0 s : StabilizerSimulator) : Prop :=
  s.destabilizers = s0.destabilizers ∧
  s.rand = s0.rand ∧
  s.stabilizers.length = s0.stabilizers.length ∧
  (∀ i : Nat, stabRel ps (s0.stabilizers.getD i defaultRow) (s.stabilizers.getD i defaultRow)) ∧
  s.stabilizers.getD p defaultRow = s0.stabilizers.getD p defaultRow

theorem stabRel_refl (ps r0 : TableauGeneratorRow) : stabRel ps r0 r0 :=
  Or.inl ⟨rfl, rfl⟩

theorem extractInv_refl (p : Nat) (ps : TableauGeneratorRow) (s0 : StabilizerSimulator) :
    extractInv p ps s0 s0 :=
  ⟨rfl, rfl, rfl, fun _ => stabRel_refl ps _, rfl⟩

theorem stabRel_rowWF (N : Nat) (ps r0 r : TableauGeneratorRow) (h : stabRel ps r0 r)
    (h0 : rowWF N r0) (hps : rowWF N ps) : rowWF N r := by
  rcases h with ⟨hx, hz⟩ | ⟨hx, hz⟩
  · exact ⟨by rw [hx]; exact h0.1, by rw [hz]; exact h0.2⟩
  · exact ⟨by rw [hx, List.length_zipWith, h0.1, hps.1, Nat.min_self],
      by rw [hz, List.length_zipWith, h0.2, hps.2, Nat.min_self]⟩

theorem fired_lt_length (l : List TableauGeneratorRow) (i qubit : Nat)
    (h : (l.getD i defaultRow).x_bits.getD qubit false = true) : i < l.length := by
  by_contra hc
  rw [List.getD_eq_default l defaultRow (show l.length ≤ i by omega)] at h
  simp [defaultRow] at h

theorem extract_go_ok_spec (N qubit p : Nat) (ps : TableauGeneratorRow)
    (s0 : StabilizerSimulator) (hWF0 : simWF N s0) (hps : rowWF N ps)
    (hanti : symplectic ps (s0.destabilizers.getD p defaultRow) = true)
    (hpsx : ps.x_bits.getD qubit false = true) :
    ∀ (l : List Nat) (s s' : StabilizerSimulator) (u : Unit),
      extractInv p ps s0 s →
      extract_go qubit p ps l s = (Except.ok u, s') →
      extractInv p ps s0 s' ∧
        (∀ j, j ∉ l → s'.stabilizers.getD j defaultRow = s.stabilizers.getD j defaultRow) ∧
        (∀ j ∈ l, j ≠ p →
          (s'.stabilizers.getD j defaultRow).x_bits.getD qubit false = false ∧
          (s0.destabilizers.getD j defaultRow).x_bits.getD qubit false = false) := by
  intro l
  induction l with
  | nil =>
    intro s s' u hInv h
    have hs : s' = s := by
      simp only [extract_go] at h
      injection h with h1 h2
      exact h2.symm
    subst hs
    exact ⟨hInv, fun j _ => rfl, fun j hj => absurd hj (by simp)⟩
  | cons i rest ih =>
    intro s s' u hInv h
    by_cases hip : i = p
    · rw [extract_go_cons_skip qubit p ps i rest s hip] at h
      obtain ⟨hI, hF, hX⟩ := ih s s' u hInv h
      refine ⟨hI, fun j hj => hF j (fun hm => hj (by simp [hm])), ?_⟩
      intro j hj hjp
      rcases List.mem_cons.mp hj with rfl | hm
      · exact absurd hip hjp
      · exact hX j hm hjp
    · rcases h1 : extract_step1 qubit i ps s with ⟨r1, s1⟩
      rcases r1 with e1 | u1
      · rw [extract_go_cons_err1 qubit p ps i rest s s1 e1 hip h1] at h
        exact absurd h (by simp)
      · cases u1
        obtain ⟨hInvD, hInvR, hInvL, hInvRel, hInvP⟩ := hInv
        -- characterize the state after step 1
        have key1 : s1.destabilizers = s.destabilizers ∧ s1.rand = s.rand ∧
            s1.stabilizers.length = s.stabilizers.length ∧
            (∀ j, j ≠ i →
              s1.stabilizers.getD j defaultRow = s.stabilizers.getD j defaultRow) ∧
            stabRel ps (s0.stabilizers.getD i defaultRow)
              (s1.stabilizers.getD i defaultRow) ∧
            (s1.stabilizers.getD i defaultRow).x_bits.getD qubit false = false := by
          unfold extract_step1 at h1
          by_cases hfire1 :
              (s.stabilizers.getD i defaultRow).x_bits.getD qubit false = true
          · rw [if_pos hfire1] at h1
            injection h1 with hr1 hs1
            have hilt : i < s.stabilizers.length := fired_lt_length _ _ _ hfire1
            have hilt0 : i < s0.stabilizers.length := by omega
            have hWFr0 : rowWF N (s0.stabilizers.getD i defaultRow) :=
              rowWF_getD N _ i hWF0.2.2.1 hilt0
            have hWFrow : rowWF N (s.stabilizers.getD i defaultRow) :=
              stabRel_rowWF N ps _ _ (hInvRel i) hWFr0 hps
            have hbits := rowsum_ok_bits _ _ hr1
            rw [← hs1]
            refine ⟨rfl, rfl, by simp [List.length_set], ?_, ?_, ?_⟩
            · intro j hj
              exact getD_set_ne _ _ _ _ _ (fun hh => hj hh.symm)
            · rw [getD_set_self _ _ _ _ hilt]
              rcases hInvRel i with ⟨hx0, hz0⟩ | ⟨hx0, hz0⟩
              · exact Or.inr ⟨by rw [hbits.1, hx0], by rw [hbits.2, hz0]⟩
              · refine Or.inl ⟨?_, ?_⟩
                · rw [hbits.1, hx0, zipWith_xor_cancel _ _ (by rw [hWFr0.1, hps.1])]
                · rw [hbits.2, hz0, zipWith_xor_cancel _ _ (by rw [hWFr0.2, hps.2])]
            · rw [getD_set_self _ _ _ _ hilt, hbits.1,
                getD_zipWith_xor _ _ _ (by rw [hWFrow.1, hps.1]), hfire1, hpsx]
              rfl
          · rw [if_neg hfire1] at h1
            injection h1 with _ hs1
            rw [← hs1]
            rw [Bool.not_eq_true] at hfire1
            exact ⟨rfl, rfl, rfl, fun j _ => rfl, hInvRel i, hfire1⟩
        rcases h2 : extract_step2 qubit p i ps s1 with ⟨r2, s2⟩
        rcases r2 with e2 | u2
        · rw [extract_go_cons_err2 qubit p ps i rest s s1 s2 () e2 hip h1 h2] at h
          exact absurd h (by simp)
        · cases u2
          have hfire2 :
              (s1.destabilizers.getD i defaultRow).x_bits.getD qubit false = false := by
            by_contra hc
            rw [Bool.not_eq_false] at hc
            unfold extract_step2 at h2
            rw [if_pos hc] at h2
            injection h2 with hr2 _
            have herr := rowsum_err_of_anticommute (s1.destabilizers.getD p defaultRow) ps
              (by rw [key1.1, hInvD]; exact hanti)
            rw [herr] at hr2
            exact absurd hr2 (by simp)
          have hs2 : s2 = s1 := by
            unfold extract_step2 at h2
            have hcond :
                ¬ ((s1.destabilizers.getD i defaultRow).x_bits.getD qubit false = true) := by
              rw [hfire2]; decide
            rw [if_neg hcond] at h2
            injection h2 with _ hs2
            exact hs2.symm
          rw [extract_go_cons_ok2 qubit p ps i rest s s1 s2 () () hip h1 h2] at h
          have hInv2 : extractInv p ps s0 s2 := by
            rw [hs2]
            refine ⟨key1.1.trans hInvD, key1.2.1.trans hInvR,
              key1.2.2.1.trans hInvL, ?_, ?_⟩
            · intro j
              by_cases hj : j = i
              · rw [hj]; exact key1.2.2.2.2.1
              · rw [key1.2.2.2.1 j hj]; exact hInvRel j
            · rw [key1.2.2.2.1 p (fun hh => hip hh.symm)]; exact hInvP
          obtain ⟨hI, hF, hX⟩ := ih s2 s' u hInv2 h
          refine ⟨hI, ?_, ?_⟩
          · intro j hj
            have hji : j ≠ i := fun hh => hj (by simp [hh])
            have hjr : j ∉ rest := fun hh => hj (by simp [hh])
            rw [hF j hjr, hs2, key1.2.2.2.1 j hji]
          · intro j hj hjp
            rcases List.mem_cons.mp hj with rfl | hm
            · refine ⟨?_, ?_⟩
              · by_cases hjr : j ∈ rest
                · exact (hX j hjr hjp).1
                · rw [hF j hjr, hs2]
                  exact key1.2.2.2.2.2
              · rw [← hInvD, ← key1.1]
                exact hfire2
            · exact hX j hm hjp

/-! ## Post-state of a successful nondeterministic measurement -/

theorem nondet_ok_post (N : Nat) (s : StabilizerSimulator) (qubit : Nat) (b : Bool)
    (s' : StabilizerSimulator) (hWF : simWF N s) (hI3 : I3 s)
    (h : nondeterministic_measurement N s qubit = (Except.ok b, s')) :
    ∃ p, p < N ∧
      qubit < N ∧
      (s.stabilizers.getD p defaultRow).x_bits.getD qubit false = true ∧
      s'.stabilizers.length = N ∧ s'.destabilizers.length = N ∧
      s'.stabilizers.getD p defaultRow = collapsed_row N qubit b ∧
      s'.destabilizers.getD p defaultRow = s.stabilizers.getD p defaultRow ∧
      (∀ j, j ≠ p → s'.destabilizers.getD j defaultRow = s.destabilizers.getD j defaultRow) ∧
      (∀ j, j < N → j ≠ p →
        stabRel (s.stabilizers.getD p defaultRow) (s.stabilizers.getD j defaultRow)
          (s'.stabilizers.getD j defaultRow) ∧
        (s'.stabilizers.getD j defaultRow).x_bits.getD qubit false = false ∧
        (s.destabilizers.getD j defaultRow).x_bits.getD qubit false = false) ∧
      s'.rand = s.rand.tail := by
  unfold nondeterministic_measurement at h
  rcases hfind : find_x_stabilizer_index s qubit with _ | p
  · rw [hfind] at h
    exact absurd h (by simp)
  · rw [hfind] at h
    have h2 : (match
        extract_stabilizer_p_after_flipping_preparing_other_stabilizers_to_expect_collapsed_state
          N s qubit p with
      | (Except.error e, s1) => (Except.error e, s1)
      | (Except.ok _, s1) =>
        collapse_p_stabilizer_and_return_measurement_outcome N s1 p qubit) =
        (Except.ok b, s') := h
    rcases hext :
      extract_stabilizer_p_after_flipping_preparing_other_stabilizers_to_expect_collapsed_state
        N s qubit p with ⟨r1, s1⟩
    rw [hext] at h2
    rcases r1 with e1 | u1
    · exact absurd h2 (by simp)
    · cases u1
      have hfind2 : s.stabilizers.findIdx?
          (fun row => row.x_bits.getD qubit false) = some p := hfind
      obtain ⟨j, hj1, hj2, hj3⟩ :=
        findIdx?_some_spec (fun row => row.x_bits.getD qubit false) defaultRow
          s.stabilizers 0 p hfind2
      have hpj : p = j := by omega
      subst hpj
      have hpN : p < N := by rw [← hWF.1]; exact hj2
      have hj3b : (s.stabilizers.getD p defaultRow).x_bits.getD qubit false = true := hj3
      have hpsWF : rowWF N (s.stabilizers.getD p defaultRow) :=
        rowWF_getD N _ p hWF.2.2.1 hj2
      have hqN : qubit < N := by
        have := getD_false_true_lt _ _ hj3b
        rw [hpsWF.1] at this
        exact this
      have hpD : p < s.destabilizers.length := by rw [hWF.2.1]; exact hpN
      have hanti : symplectic (s.stabilizers.getD p defaultRow)
          (s.destabilizers.getD p defaultRow) = true := by
        rw [symplectic_symm N _ _ hpsWF (rowWF_getD N _ p hWF.2.2.2 hpD)]
        have := hI3 p hpD p hj2
        rw [this]
        simp
      unfold
        extract_stabilizer_p_after_flipping_preparing_other_stabilizers_to_expect_collapsed_state
        at hext
      obtain ⟨hI, hF, hX⟩ := extract_go_ok_spec N qubit p
        (s.stabilizers.getD p defaultRow) s hWF hpsWF hanti hj3b (List.range N) s s1 ()
        (extractInv_refl p _ s) hext
      obtain ⟨hID, hIR, hIL, hIRel, hIP⟩ := hI
      unfold collapse_p_stabilizer_and_return_measurement_outcome at h2
      injection h2 with hb hs'
      have hcoin : (gen_bool s1.rand).1 = b := by injection hb with hb2
      have hs1len : s1.stabilizers.length = N := by rw [hIL, hWF.1]
      have hs1lenD : s1.destabilizers.length = N := by rw [hID, hWF.2.1]
      refine ⟨p, hpN, hqN, hj3b, ?_, ?_, ?_, ?_, ?_, ?_, ?_⟩
      · rw [← hs']
        simp only [List.length_set]
        exact hs1len
      · rw [← hs']
        simp only [List.length_set]
        exact hs1lenD
      · rw [← hs']
        simp only []
        rw [getD_set_self _ _ _ _ (by rw [hs1len]; exact hpN), hcoin]
      · rw [← hs']
        simp only []
        rw [getD_set_self _ _ _ _ (by rw [hs1lenD]; exact hpN)]
        exact hIP
      · intro j2 hj2p
        rw [← hs']
        simp only []
        rw [getD_set_ne _ _ _ _ _ (fun hh => hj2p hh.symm), hID]
      · intro j2 hj2N hj2p
        rw [← hs']
        simp only []
        rw [getD_set_ne _ _ _ _ _ (fun hh => hj2p hh.symm)]
        refine ⟨hIRel j2, ?_, ?_⟩
        · exact (hX j2 (List.mem_range.mpr hj2N) hj2p).1
        · exact (hX j2 (List.mem_range.mpr hj2N) hj2p).2
      · rw [← hs']
        simp only []
        rw [hIR]
        rfl

/-! ## Evaluating the deterministic accumulation loop -/

theorem det_go_skip (qubit : Nat) :
    ∀ (l : List (TableauGeneratorRow × TableauGeneratorRow))
      (scratch : TableauGeneratorRow),
      (∀ pr ∈ l, pr.1.x_bits.getD qubit false = false) →
      det_go qubit l scratch = Except.ok scratch := by
  intro l
  induction l with
  | nil => intro scratch _; rfl
  | cons pr rest ih =>
    intro scratch h
    simp only [det_go]
    rw [if_neg (by rw [h pr (by simp)]; decide)]
    exact ih scratch (fun q hq => h q (by simp [hq]))

theorem det_go_single (qubit : Nat) (dp : TableauGeneratorRow × TableauGeneratorRow) :
    ∀ (l : List (TableauGeneratorRow × TableauGeneratorRow)) (k : Nat)
      (scratch : TableauGeneratorRow), k < l.length →
      (∀ j, j < l.length → j ≠ k → ((l.getD j dp).1.x_bits.getD qubit false) = false) →
      ((l.getD k dp).1.x_bits.getD qubit false = true) →
      det_go qubit l scratch =
        (match rowsum scratch (l.getD k dp).2 with
         | (Except.error e, _) => Except.error e
         | (Except.ok _, scratch1) => Except.ok scratch1) := by
  intro l
  induction l with
  | nil => intro k scratch hk; simp at hk
  | cons pr rest ih =>
    intro k scratch hk hoff hon
    cases k with
    | zero =>
      simp only [List.getD_cons_zero] at hon ⊢
      simp only [det_go]
      rw [if_pos hon]
      rcases hr : rowsum scratch pr.2 with ⟨r1, sc1⟩
      rcases r1 with e | u
      · rfl
      · exact det_go_skip qubit rest sc1 (by
          intro q hq
          obtain ⟨j, hj, heq⟩ := List.mem_iff_getElem.mp hq
          rw [← List.getD_eq_getElem rest dp hj] at heq
          rw [← heq]
          have := hoff (j + 1) (by simp; omega) (by omega)
          simpa using this)
    | succ k2 =>
      simp only [List.getD_cons_succ] at hon ⊢
      simp only [det_go]
      have h0 := hoff 0 (by simp) (by omega)
      simp only [List.getD_cons_zero] at h0
      rw [if_neg (by rw [h0]; decide)]
      exact ih k2 scratch (by simpa using hk)
        (fun j hj hjk => by
          have := hoff (j + 1) (by simp; omega) (by omega)
          simpa using this) hon

/-! ## The rowsum of the scratch row with the collapsed row -/

theorem exponent_sum_bits_scratch :
    ∀ (xs zs : List Bool) (n : Nat),
      exponent_sum_bits xs zs (List.replicate n false) (List.replicate n false) = 0 := by
  intro xs
  induction xs with
  | nil => intro zs n; rfl
  | cons x xt ih =>
    intro zs n
    cases zs with
    | nil => rfl
    | cons z zt =>
      cases n with
      | zero => rfl
      | succ m =>
        simp only [List.replicate, exponent_sum_bits]
        have hz : pauli_imaginary_phase_exponent x z false false = 0 := by
          cases x <;> cases z <;> rfl
        rw [hz, ih zt m]
        rfl

theorem rowsum_scratch_collapsed (N qubit : Nat) (b : Bool) :
    (rowsum { phase_is_negated := false, x_bits := List.replicate N false,
              z_bits := List.replicate N false } (collapsed_row N qubit b)).1 =
        Except.ok () ∧
      (rowsum { phase_is_negated := false, x_bits := List.replicate N false,
                z_bits := List.replicate N false } (collapsed_row N qubit b)).2.phase_is_negated =
        b := by
  have hexp : exponent_sum (collapsed_row N qubit b)
      { phase_is_negated := false, x_bits := List.replicate N false,
        z_bits := List.replicate N false } = 0 :=
    exponent_sum_bits_scratch _ _ N
  have hphase : rowsum_phase
      { phase_is_negated := false, x_bits := List.replicate N false,
        z_bits := List.replicate N false } (collapsed_row N qubit b) =
      (if b then 2 else 0) := by
    unfold rowsum_phase
    rw [hexp]
    cases b <;> rfl
  unfold rowsum
  rw [hphase]
  cases b
  · rw [if_pos (by decide)]
    exact ⟨rfl, rfl⟩
  · rw [if_neg (by decide), if_pos (by decide)]
    exact ⟨rfl, rfl⟩

theorem forall_mem_of_forall_getD {α : Type} (d : α) (P : α → Prop) :
    ∀ (l : List α), (∀ i, i < l.length → P (l.getD i d)) → ∀ r ∈ l, P r := by
  intro l h r hr
  obtain ⟨i, hi, heq⟩ := List.mem_iff_getElem.mp hr
  rw [← List.getD_eq_getElem l d hi] at heq
  rw [← heq]
  exact h i hi

theorem measure_post_collapse (N : Nat) (s s' : StabilizerSimulator) (qubit p : Nat)
    (b : Bool) (hpN : p < N)
    (hpx : (s.stabilizers.getD p defaultRow).x_bits.getD qubit false = true)
    (hlen : s'.stabilizers.length = N) (hlenD : s'.destabilizers.length = N)
    (hstabp : s'.stabilizers.getD p defaultRow = collapsed_row N qubit b)
    (hdestabp : s'.destabilizers.getD p defaultRow = s.stabilizers.getD p defaultRow)
    (hdestab : ∀ j, j ≠ p →
      s'.destabilizers.getD j defaultRow = s.destabilizers.getD j defaultRow)
    (hstabx : ∀ j, j < N → j ≠ p →
      (s'.stabilizers.getD j defaultRow).x_bits.getD qubit false = false)
    (hdestabx : ∀ j, j < N → j ≠ p →
      (s.destabilizers.getD j defaultRow).x_bits.getD qubit false = false) :
    StabilizerSimulator.measure N s' qubit = (Except.ok b, s') := by
  have hallx : ∀ r ∈ s'.stabilizers, r.x_bits.getD qubit false = false := by
    refine forall_mem_of_forall_getD defaultRow _ _ (fun i hi => ?_)
    rw [hlen] at hi
    by_cases hip : i = p
    · rw [hip, hstabp]
      simp only [collapsed_row]
      exact getD_replicate_false N qubit
    · exact hstabx i hi hip
  have hdet := is_deterministic_of_no_x s' qubit hallx
  obtain ⟨hframe, heq⟩ := measure_deterministic_frame N s' qubit hdet
  rw [heq]
  unfold determine_deterministic_measurement
  have hziplen : (s'.destabilizers.zip s'.stabilizers).length = N := by
    rw [List.length_zip, hlen, hlenD, Nat.min_self]
  have hzip : ∀ j, j < N → (s'.destabilizers.zip s'.stabilizers).getD j
      (defaultRow, defaultRow) =
      (s'.destabilizers.getD j defaultRow, s'.stabilizers.getD j defaultRow) := by
    intro j hj
    exact getD_zip _ _ j _ _ (by rw [hlenD]; exact hj) (by rw [hlen]; exact hj)
  have hgo := det_go_single qubit (defaultRow, defaultRow)
    (s'.destabilizers.zip s'.stabilizers) p
    { phase_is_negated := false, x_bits := List.replicate N false,
      z_bits := List.replicate N false }
    (by rw [hziplen]; exact hpN)
    (by
      intro j hj hjp
      rw [hziplen] at hj
      rw [hzip j hj]
      simp only []
      rw [hdestab j hjp]
      exact hdestabx j hj hjp)
    (by
      rw [hzip p hpN]
      simp only []
      rw [hdestabp]
      exact hpx)
  rw [hgo, hzip p hpN]
  simp only []
  rw [hstabp]
  rcases hrs : rowsum ⟨false, List.replicate N false, List.replicate N false⟩
      (collapsed_row N qubit b) with ⟨r1, row⟩
  have hok := rowsum_scratch_collapsed N qubit b
  rw [hrs] at hok
  rcases r1 with e | u
  · exact absurd hok.1 (by simp)
  · simp only []
    rw [hok.2]

/-! ## Commutation through stabRel rows -/

theorem symplectic_stabRel_left (N : Nat) (ps r0 r y : TableauGeneratorRow)
    (hrel : stabRel ps r0 r) (h0 : rowWF N r0) (hps : rowWF N ps) (hy : rowWF N y)
    (hpsy : symplectic ps y = false) :
    symplectic r y = symplectic r0 y := by
  rcases hrel with ⟨hx, hz⟩ | ⟨hx, hz⟩
  · unfold symplectic
    rw [hx, hz]
  · rw [symplectic_xor_left N r r0 ps y h0 hps hy hx hz, hpsy]
    cases symplectic r0 y <;> rfl

theorem symplectic_stabRel_right (N : Nat) (ps r0 r y : TableauGeneratorRow)
    (hrel : stabRel ps r0 r) (h0 : rowWF N r0) (hps : rowWF N ps) (hy : rowWF N y)
    (hyps : symplectic y ps = false) :
    symplectic y r = symplectic y r0 := by
  have hr : rowWF N r := stabRel_rowWF N ps r0 r hrel h0 hps
  rw [symplectic_symm N y r hy hr, symplectic_symm N y r0 hy h0]
  exact symplectic_stabRel_left N ps r0 r y hrel h0 hps hy
    (by rw [symplectic_symm N ps y hps hy]; exact hyps)

/-! ## Invariants after a successful collapse -/

theorem nondet_post_invariants (N : Nat) (s s' : StabilizerSimulator) (qubit p : Nat)
    (b : Bool) (hWF : simWF N s) (hinv : invariants s)
    (hpN : p < N) (hqN : qubit < N)
    (hpx : (s.stabilizers.getD p defaultRow).x_bits.getD qubit false = true)
    (hlen : s'.stabilizers.length = N) (hlenD : s'.destabilizers.length = N)
    (hstabp : s'.stabilizers.getD p defaultRow = collapsed_row N qubit b)
    (hdestabp : s'.destabilizers.getD p defaultRow = s.stabilizers.getD p defaultRow)
    (hdestab : ∀ j, j ≠ p →
      s'.destabilizers.getD j defaultRow = s.destabilizers.getD j defaultRow)
    (hstab : ∀ j, j < N → j ≠ p →
      stabRel (s.stabilizers.getD p defaultRow) (s.stabilizers.getD j defaultRow)
        (s'.stabilizers.getD j defaultRow) ∧
      (s'.stabilizers.getD j defaultRow).x_bits.getD qubit false = false ∧
      (s.destabilizers.getD j defaultRow).x_bits.getD qubit false = false) :
    invariants s' ∧ simWF N s' := by
  obtain ⟨hI1, hI2, hI3⟩ := hinv
  obtain ⟨hsl, hdl, hsr, hdr⟩ := hWF
  have hO : ∀ j, j < N → rowWF N (s.stabilizers.getD j defaultRow) :=
    fun j hj => rowWF_getD N _ j hsr (by rw [hsl]; exact hj)
  have hD : ∀ j, j < N → rowWF N (s.destabilizers.getD j defaultRow) :=
    fun j hj => rowWF_getD N _ j hdr (by rw [hdl]; exact hj)
  have hP : rowWF N (s.stabilizers.getD p defaultRow) := hO p hpN
  have hT : ∀ j, j < N → rowWF N (s'.stabilizers.getD j defaultRow) := by
    intro j hj
    by_cases hjp : j = p
    · rw [hjp, hstabp]; exact rowWF_collapsed N qubit b
    · exact stabRel_rowWF N _ _ _ (hstab j hj hjp).1 (hO j hj) hP
  have hDf : ∀ j, j < N → rowWF N (s'.destabilizers.getD j defaultRow) := by
    intro j hj
    by_cases hjp : j = p
    · rw [hjp, hdestabp]; exact hP
    · rw [hdestab j hjp]; exact hD j hj
  -- symplectic of original rows in index form
  have hsymOO : ∀ i j, i < N → j < N →
      symplectic (s.stabilizers.getD i defaultRow) (s.stabilizers.getD j defaultRow) =
        false := by
    intro i j hi hj
    exact hI1 i (by rw [hsl]; exact hi) j (by rw [hsl]; exact hj)
  have hsymDD : ∀ i j, i < N → j < N →
      symplectic (s.destabilizers.getD i defaultRow) (s.destabilizers.getD j defaultRow) =
        false := by
    intro i j hi hj
    exact hI2 i (by rw [hdl]; exact hi) j (by rw [hdl]; exact hj)
  have hsymDO : ∀ i j, i < N → j < N →
      symplectic (s.destabilizers.getD i defaultRow) (s.stabilizers.getD j defaultRow) =
        decide (i = j) := by
    intro i j hi hj
    exact hI3 i (by rw [hdl]; exact hi) j (by rw [hsl]; exact hj)
  -- commutation of modified stabilizer rows with any row commuting with both
  -- the original row and row p
  have hTfact : ∀ j y, j < N → j ≠ p → rowWF N y → symplectic y (s.stabilizers.getD p defaultRow) = false →
      symplectic y (s'.stabilizers.getD j defaultRow) =
        symplectic y (s.stabilizers.getD j defaultRow) := by
    intro j y hj hjp hy hyP
    exact symplectic_stabRel_right N _ _ _ y (hstab j hj hjp).1 (hO j hj) hP hy hyP
  refine ⟨⟨?_, ?_, ?_⟩, ?_, ?_, ?_, ?_⟩
  · -- I1
    intro i hi j hj
    rw [hlen] at hi hj
    by_cases hip : i = p
    · by_cases hjp : j = p
      · rw [hip, hjp, hstabp]
        exact symplectic_self N _ (rowWF_collapsed N qubit b)
      · rw [hip, hstabp, symplectic_symm N _ _ (rowWF_collapsed N qubit b) (hT j hj),
          symplectic_collapsed_right N qubit hqN b _ (hT j hj)]
        exact (hstab j hj hjp).2.1
    · by_cases hjp : j = p
      · rw [hjp, hstabp, symplectic_collapsed_right N qubit hqN b _ (hT i hi)]
        exact (hstab i hi hip).2.1
      · rw [symplectic_symm N _ _ (hT i hi) (hT j hj),
          hTfact i _ hi hip (hT j hj) ?hTjP,
          symplectic_symm N _ _ (hT j hj) (hO i hi),
          hTfact j _ hj hjp (hO i hi) ?hOiP,
          hsymOO i j hi hj]
        case hOiP => exact hsymOO i p hi hpN
        case hTjP =>
          rw [symplectic_symm N _ _ (hT j hj) hP,
            hTfact j _ hj hjp hP (symplectic_self N _ hP),
            symplectic_symm N _ _ hP (hO j hj)]
          exact hsymOO j p hj hpN
  · -- I2
    intro i hi j hj
    rw [hlenD] at hi hj
    by_cases hip : i = p
    · by_cases hjp : j = p
      · rw [hip, hjp, hdestabp]
        exact symplectic_self N _ hP
      · rw [hip, hdestabp, hdestab j hjp, symplectic_symm N _ _ hP (hD j hj)]
        have := hsymDO j p hj hpN
        rw [this]
        simp [hjp]
    · by_cases hjp : j = p
      · rw [hjp, hdestabp, hdestab i hip]
        have := hsymDO i p hi hpN
        rw [this]
        simp [hip]
      · rw [hdestab i hip, hdestab j hjp]
        exact hsymDD i j hi hj
  · -- I3
    intro i hi j hj
    rw [hlenD] at hi
    rw [hlen] at hj
    by_cases hip : i = p
    · by_cases hjp : j = p
      · rw [hip, hjp, hstabp, hdestabp,
          symplectic_collapsed_right N qubit hqN b _ hP, hpx]
        simp
      · rw [hip, hdestabp, hTfact j _ hj hjp hP (symplectic_self N _ hP),
          symplectic_symm N _ _ hP (hO j hj), hsymOO j p hj hpN]
        have hpj : p ≠ j := fun hh => hjp hh.symm
        simp [hpj]
    · by_cases hjp : j = p
      · rw [hjp, hstabp, hdestab i hip,
          symplectic_collapsed_right N qubit hqN b _ (hD i hi),
          (hstab i hi hip).2.2]
        simp [hip]
      · rw [hdestab i hip,
          hTfact j _ hj hjp (hD i hi) ?hDiP,
          hsymDO i j hi hj]
        case hDiP =>
          rw [hsymDO i p hi hpN]
          simp [hip]
  · exact hlen
  · exact hlenD
  · exact forall_mem_of_forall_getD defaultRow _ _ (fun i hi => hT i (by rw [← hlen]; exact hi))
  · exact forall_mem_of_forall_getD defaultRow _ _ (fun i hi => hDf i (by rw [← hlenD]; exact hi))

/-! ## The initial tableau -/

theorem range_getD (N i : Nat) (hi : i < N) : (List.range N).getD i 0 = i := by
  rw [List.getD_eq_getElem _ _ (by simpa using hi)]
  simp

theorem new_stab_getD (N : Nat) (r : List Bool) (i : Nat) (hi : i < N) :
    (StabilizerSimulator.new N r).stabilizers.getD i defaultRow =
      ⟨false, List.replicate N false, (List.replicate N false).set i true⟩ := by
  unfold StabilizerSimulator.new
  simp only []
  rw [getD_map_lt _ _ i _ 0 (by simpa using hi), range_getD N i hi]

theorem new_destab_getD (N : Nat) (r : List Bool) (i : Nat) (hi : i < N) :
    (StabilizerSimulator.new N r).destabilizers.getD i defaultRow =
      ⟨false, (List.replicate N false).set i true, List.replicate N false⟩ := by
  unfold StabilizerSimulator.new
  simp only []
  rw [getD_map_lt _ _ i _ 0 (by simpa using hi), range_getD N i hi]

theorem new_stab_length (N : Nat) (r : List Bool) :
    (StabilizerSimulator.new N r).stabilizers.length = N := by
  unfold StabilizerSimulator.new
  simp

theorem new_destab_length (N : Nat) (r : List Bool) :
    (StabilizerSimulator.new N r).destabilizers.length = N := by
  unfold StabilizerSimulator.new
  simp

/-! ## Random-source use of measure -/

theorem measure_rand (N : Nat) (s : StabilizerSimulator) (qubit : Nat) :
    (is_deterministic s qubit = true →
      (StabilizerSimulator.measure N s qubit).2.rand = s.rand) ∧
    (is_deterministic s qubit = false →
      (∀ b s', StabilizerSimulator.measure N s qubit = (Except.ok b, s') →
        s'.rand = s.rand.tail) ∧
      (∀ e s', StabilizerSimulator.measure N s qubit = (Except.error e, s') →
        s'.rand = s.rand)) := by
  constructor
  · intro hd
    rw [(measure_deterministic_frame N s qubit hd).1]
  · intro hd
    have hmeas : StabilizerSimulator.measure N s qubit =
        nondeterministic_measurement N s qubit := by
      unfold StabilizerSimulator.measure
      rw [if_neg (by rw [hd]; decide)]
    rcases hfind : find_x_stabilizer_index s qubit with _ | p
    · have hdt : is_deterministic s qubit = true := by
        unfold is_deterministic
        rw [hfind]
        rfl
      rw [hdt] at hd
      exact absurd hd (by decide)
    · have hnd : nondeterministic_measurement N s qubit = (match
          extract_stabilizer_p_after_flipping_preparing_other_stabilizers_to_expect_collapsed_state
            N s qubit p with
        | (Except.error e, s1) => (Except.error e, s1)
        | (Except.ok _, s1) =>
          collapse_p_stabilizer_and_return_measurement_outcome N s1 p qubit) := by
        unfold nondeterministic_measurement
        rw [hfind]
      rcases hext :
        extract_stabilizer_p_after_flipping_preparing_other_stabilizers_to_expect_collapsed_state
          N s qubit p with ⟨r1, s1⟩
      rw [hext] at hnd
      have hrand1 : s1.rand = s.rand := by
        have := extract_go_rand qubit p (s.stabilizers.getD p defaultRow) (List.range N) s
        unfold
          extract_stabilizer_p_after_flipping_preparing_other_stabilizers_to_expect_collapsed_state
          at hext
        rw [hext] at this
        exact this
      rcases r1 with e1 | u1
      · constructor
        · intro b s' hb
          rw [hmeas, hnd] at hb
          exact absurd hb (by simp)
        · intro e s' he
          rw [hmeas, hnd] at he
          have hs' : s' = s1 := by
            injection he with _ h2
            exact h2.symm
          rw [hs', hrand1]
      · cases u1
        constructor
        · intro b s' hb
          rw [hmeas, hnd] at hb
          unfold collapse_p_stabilizer_and_return_measurement_outcome at hb
          injection hb with _ h2
          rw [← h2]
          simp only []
          rw [hrand1]
          rfl
        · intro e s' he
          rw [hmeas, hnd] at he
          exact absurd he (by simp [collapse_p_stabilizer_and_return_measurement_outcome])

/-- A client program: a list of operations, each either a gate application
or a measurement of a qubit.  Running it returns the list of measurement
results and the final simulator. -/
def run_program (N : Nat) : List (Gate ⊕ Nat) → StabilizerSimulator →
    List (Except String Bool) × StabilizerSimulator
  | [], s => ([], s)
  | (Sum.inl g) :: rest, s => run_program N rest (apply_gate s g)
  | (Sum.inr q) :: rest, s =>
    ((StabilizerSimulator.measure N s q).1 ::
        (run_program N rest (StabilizerSimulator.measure N s q).2).1,
      (run_program N rest (StabilizerSimulator.measure N s q).2).2)

/-! ## Claim theorems -/

/-- Claim C1, counterexample: the initial 1-qubit tableau is well formed and
satisfies I1 through I3, and Cx(0, 0) is an apply_gate call the claim ranges
over, yet the resulting tableau violates I3: zeroing both rows makes the
destabilizer commute with its own stabilizer. -/
theorem C1_counterexample :
    invariants (StabilizerSimulator.new 1 []) ∧
    simWF 1 (StabilizerSimulator.new 1 []) ∧
    ¬ I3 (apply_gate (StabilizerSimulator.new 1 []) (Gate.Cx 0 0)) :=
  ⟨by decide, by decide, by decide⟩

/-- Claim C1, amended: restricted to gates whose indices are in range and,
for Cx, whose control and target differ, every apply_gate call preserves
I1 through I3 (and well-formedness), and so does every measure call that
returns Ok. -/
theorem C1_amended (N : Nat) (s : StabilizerSimulator)
    (hWF : simWF N s) (hinv : invariants s) :
    (∀ g : Gate, gateWF N g →
      invariants (apply_gate s g) ∧ simWF N (apply_gate s g)) ∧
    (∀ (qubit : Nat) (b : Bool) (s' : StabilizerSimulator),
      StabilizerSimulator.measure N s qubit = (Except.ok b, s') →
      invariants s' ∧ simWF N s') := by
  constructor
  · intro g hg
    exact ⟨invariants_apply_gate N s g hWF hg hinv, simWF_apply_gate N s g hWF⟩
  · intro qubit b s' h
    by_cases hd : is_deterministic s qubit = true
    · have hfr := (measure_deterministic_frame N s qubit hd).1
      rw [h] at hfr
      have hss : s' = s := hfr
      rw [hss]
      exact ⟨hinv, hWF⟩
    · rw [Bool.not_eq_true] at hd
      have hmeq : nondeterministic_measurement N s qubit = (Except.ok b, s') := by
        unfold StabilizerSimulator.measure at h
        rw [if_neg (by rw [hd]; decide)] at h
        exact h
      obtain ⟨p, hpN, hqN, hpx, hlen, hlenD, hstabp, hdestabp, hdestab, hstab, hrand⟩ :=
        nondet_ok_post N s qubit b s' hWF hinv.2.2 hmeq
      exact nondet_post_invariants N s s' qubit p b hWF hinv hpN hqN hpx hlen hlenD
        hstabp hdestabp hdestab hstab

/-- Witness for the amended claim C1: a gate application and a successful
(nondeterministic) measurement at qubit count one. -/
theorem C1_witness :
    (invariants (apply_gate (StabilizerSimulator.new 1 []) (Gate.H 0)) ∧
      simWF 1 (apply_gate (StabilizerSimulator.new 1 []) (Gate.H 0))) ∧
    (invariants (StabilizerSimulator.mk [⟨true, [false], [true]⟩]
        [⟨false, [true], [false]⟩] []) ∧
      simWF 1 (StabilizerSimulator.mk [⟨true, [false], [true]⟩]
        [⟨false, [true], [false]⟩] [])) :=
  ⟨(C1_amended 1 (StabilizerSimulator.new 1 []) (by decide) (by decide)).1
      (Gate.H 0) (by decide),
    (C1_amended 1 (apply_gate (StabilizerSimulator.new 1 [true]) (Gate.H 0))
      (by decide) (by decide)).2 0 true _ rfl⟩

/-- Claim C2, code bug: at row_h = +Y⊗Y and row_i = +Z⊗Z the combined phase
exponent is −2, which is congruent to 2 modulo 4 (the product is the real
Pauli operator −X⊗X), so per the specification rowsum must succeed with the
phase set negative; the code computes −2 with the truncating remainder,
matches neither 0 nor 2, and returns the invariant-violation error with
row_h untouched. -/
theorem C2_failing_input :
    rowsum ⟨false, [true, true], [true, true]⟩ ⟨false, [false, false], [true, true]⟩ =
      (Except.error non_stabilizer_msg, ⟨false, [true, true], [true, true]⟩) ∧
    2 * (if (false : Bool) then (1 : Int) else 0) +
        2 * (if (false : Bool) then (1 : Int) else 0) +
        exponent_sum ⟨false, [false, false], [true, true]⟩
          ⟨false, [true, true], [true, true]⟩ = -2 ∧
    ((-2 : Int) % 4 = 2) ∧
    (Int.tmod (-2) 4 = -2) :=
  ⟨rfl, by decide, by decide, by decide⟩

/-- Claim C3: after a measure call returns Ok b, measuring the same qubit
again with no intervening gates returns Ok b and leaves the tableau as it
was (the hypotheses record that the pre-measurement state is well formed
and satisfies invariant I3, which every reachable state does). -/
theorem C3_remeasure (N : Nat) (s : StabilizerSimulator) (qubit : Nat) (b : Bool)
    (s' : StabilizerSimulator) (hWF : simWF N s) (hI3 : I3 s)
    (h : StabilizerSimulator.measure N s qubit = (Except.ok b, s')) :
    StabilizerSimulator.measure N s' qubit = (Except.ok b, s') := by
  by_cases hd : is_deterministic s qubit = true
  · have hfr := (measure_deterministic_frame N s qubit hd).1
    rw [h] at hfr
    have hss : s' = s := hfr
    rw [hss] at h ⊢
    exact h
  · rw [Bool.not_eq_true] at hd
    have hmeq : nondeterministic_measurement N s qubit = (Except.ok b, s') := by
      unfold StabilizerSimulator.measure at h
      rw [if_neg (by rw [hd]; decide)] at h
      exact h
    obtain ⟨p, hpN, hqN, hpx, hlen, hlenD, hstabp, hdestabp, hdestab, hstab, hrand⟩ :=
      nondet_ok_post N s qubit b s' hWF hI3 hmeq
    exact measure_post_collapse N s s' qubit p b hpN hpx hlen hlenD hstabp
      hdestabp hdestab (fun j hj hjp => (hstab j hj hjp).2.1)
      (fun j hj hjp => (hstab j hj hjp).2.2)

/-- Witness for claim C3: a nondeterministic measurement of qubit 0 on the
plus state collapses to one, and remeasuring returns one again. -/
theorem C3_witness :
    StabilizerSimulator.measure 1
      (StabilizerSimulator.mk [⟨true, [false], [true]⟩]
        [⟨false, [true], [false]⟩] []) 0 =
      (Except.ok true,
       StabilizerSimulator.mk [⟨true, [false], [true]⟩]
        [⟨false, [true], [false]⟩] []) :=
  C3_remeasure 1 (apply_gate (StabilizerSimulator.new 1 [true]) (Gate.H 0)) 0 true _
    (by decide) (by decide) rfl

/-- Claim C4: a Cx(control, target) gate with distinct in-range control and
target flips each row's phase bit exactly when
x_bits[control] && z_bits[target] && (z_bits[control] XOR x_bits[target] XOR true)
holds of the row's pre-update bits, for stabilizer and destabilizer rows
alike. -/
theorem C4_cx_phase (N c t : Nat) (s : StabilizerSimulator) (hWF : simWF N s)
    (hc : c < N) (ht : t < N) (hne : c ≠ t) (i : Nat) (hi : i < N) :
    (((apply_gate s (Gate.Cx c t)).stabilizers.getD i defaultRow).phase_is_negated =
      Bool.xor (s.stabilizers.getD i defaultRow).phase_is_negated
        ((s.stabilizers.getD i defaultRow).x_bits.getD c false &&
          (s.stabilizers.getD i defaultRow).z_bits.getD t false &&
          Bool.xor (Bool.xor ((s.stabilizers.getD i defaultRow).z_bits.getD c false)
            ((s.stabilizers.getD i defaultRow).x_bits.getD t false)) true)) ∧
    (((apply_gate s (Gate.Cx c t)).destabilizers.getD i defaultRow).phase_is_negated =
      Bool.xor (s.destabilizers.getD i defaultRow).phase_is_negated
        ((s.destabilizers.getD i defaultRow).x_bits.getD c false &&
          (s.destabilizers.getD i defaultRow).z_bits.getD t false &&
          Bool.xor (Bool.xor ((s.destabilizers.getD i defaultRow).z_bits.getD c false)
            ((s.destabilizers.getD i defaultRow).x_bits.getD t false)) true)) := by
  constructor
  · have hmap : (apply_gate s (Gate.Cx c t)).stabilizers.getD i defaultRow =
        apply_gate_row (Gate.Cx c t) (s.stabilizers.getD i defaultRow) := by
      simp only [apply_gate]
      exact getD_map_lt _ _ i _ defaultRow (by rw [hWF.1]; exact hi)
    rw [hmap]
    exact cx_phase_pre_update N c t hc ht hne _
      (rowWF_getD N _ i hWF.2.2.1 (by rw [hWF.1]; exact hi))
  · have hmap : (apply_gate s (Gate.Cx c t)).destabilizers.getD i defaultRow =
        apply_gate_row (Gate.Cx c t) (s.destabilizers.getD i defaultRow) := by
      simp only [apply_gate]
      exact getD_map_lt _ _ i _ defaultRow (by rw [hWF.2.1]; exact hi)
    rw [hmap]
    exact cx_phase_pre_update N c t hc ht hne _
      (rowWF_getD N _ i hWF.2.2.2 (by rw [hWF.2.1]; exact hi))

/-- Witness for claim C4 on a two-qubit simulator with a row holding X on
the control and Z on the target. -/
theorem C4_witness :
    ((apply_gate (StabilizerSimulator.new 2 []) (Gate.Cx 0 1)).stabilizers.getD 0
        defaultRow).phase_is_negated =
      Bool.xor ((StabilizerSimulator.new 2 []).stabilizers.getD 0
          defaultRow).phase_is_negated
        (((StabilizerSimulator.new 2 []).stabilizers.getD 0 defaultRow).x_bits.getD 0
            false &&
          ((StabilizerSimulator.new 2 []).stabilizers.getD 0 defaultRow).z_bits.getD 1
            false &&
          Bool.xor (Bool.xor (((StabilizerSimulator.new 2 []).stabilizers.getD 0
              defaultRow).z_bits.getD 0 false)
            (((StabilizerSimulator.new 2 []).stabilizers.getD 0
              defaultRow).x_bits.getD 1 false)) true) :=
  (C4_cx_phase 2 0 1 (StabilizerSimulator.new 2 []) (by decide) (by decide)
    (by decide) (by decide) 0 (by decide)).1

/-- Claim C5: when no stabilizer row has an X component at the measured
qubit, measure takes the deterministic path and the tableau and random
source after the call are exactly the state before the call. -/
theorem C5_deterministic_frame (N : Nat) (s : StabilizerSimulator) (qubit : Nat)
    (h : ∀ r ∈ s.stabilizers, r.x_bits.getD qubit false = false) :
    is_deterministic s qubit = true ∧
    StabilizerSimulator.measure N s qubit =
      determine_deterministic_measurement N s qubit ∧
    (StabilizerSimulator.measure N s qubit).2 = s := by
  have hdet := is_deterministic_of_no_x s qubit h
  obtain ⟨hfr, heq⟩ := measure_deterministic_frame N s qubit hdet
  exact ⟨hdet, heq, hfr⟩

/-- Witness for claim C5 at the initial two-qubit state. -/
theorem C5_witness :
    is_deterministic (StabilizerSimulator.new 2 [true]) 0 = true ∧
    StabilizerSimulator.measure 2 (StabilizerSimulator.new 2 [true]) 0 =
      determine_deterministic_measurement 2 (StabilizerSimulator.new 2 [true]) 0 ∧
    (StabilizerSimulator.measure 2 (StabilizerSimulator.new 2 [true]) 0).2 =
      StabilizerSimulator.new 2 [true] :=
  C5_deterministic_frame 2 (StabilizerSimulator.new 2 [true]) 0 (by decide)

/-- Claim C6: for every qubit count of at least one and every coin stream
(hence every seed), measuring qubit 0 of the freshly constructed all-zero
state returns Ok false and leaves the simulator unchanged. -/
theorem C6_initial_measure (N : Nat) (r : List Bool) (hN : 1 ≤ N) :
    StabilizerSimulator.measure N (StabilizerSimulator.new N r) 0 =
      (Except.ok false, StabilizerSimulator.new N r) := by
  have hzero : (0 : Nat) < N := hN
  refine measure_post_collapse N
    ⟨(StabilizerSimulator.new N r).destabilizers,
     (StabilizerSimulator.new N r).destabilizers, []⟩
    (StabilizerSimulator.new N r) 0 0 false hzero ?_ ?_ ?_ ?_ ?_ ?_ ?_ ?_
  · simp only []
    rw [new_destab_getD N r 0 hzero]
    simp only []
    exact getD_set_self _ _ _ _ (by simp only [List.length_replicate]; exact hzero)
  · exact new_stab_length N r
  · exact new_destab_length N r
  · rw [new_stab_getD N r 0 hzero]
    rfl
  · rfl
  · intro j hj
    rfl
  · intro j hj hj0
    rw [new_stab_getD N r j hj]
    simp only []
    exact getD_replicate_false N 0
  · intro j hj hj0
    simp only []
    rw [new_destab_getD N r j hj]
    simp only []
    rw [getD_set_ne _ _ _ _ _ hj0]
    exact getD_replicate_false N 0

/-- Witness for claim C6 at three qubits. -/
theorem C6_witness :
    StabilizerSimulator.measure 3 (StabilizerSimulator.new 3 [true, false]) 0 =
      (Except.ok false, StabilizerSimulator.new 3 [true, false]) :=
  C6_initial_measure 3 [true, false] (by decide)

/-- Claim C7: the run of any operation sequence is a deterministic function
of the qubit count and the coin stream (itself a function of the seed);
apply_gate never touches the random source, the deterministic measurement
path never consumes randomness, and a nondeterministic measurement consumes
exactly the single coin of its collapse step (and none when it fails before
the coin flip). -/
theorem C7_rand_confinement (N : Nat) (s : StabilizerSimulator) (g : Gate)
    (qubit : Nat) (ops : List (Gate ⊕ Nat)) (r1 r2 : List Bool) :
    (r1 = r2 → run_program N ops (StabilizerSimulator.new N r1) =
      run_program N ops (StabilizerSimulator.new N r2)) ∧
    (apply_gate s g).rand = s.rand ∧
    (is_deterministic s qubit = true →
      (StabilizerSimulator.measure N s qubit).2.rand = s.rand) ∧
    (is_deterministic s qubit = false →
      (∀ b s', StabilizerSimulator.measure N s qubit = (Except.ok b, s') →
        s'.rand = s.rand.tail) ∧
      (∀ e s', StabilizerSimulator.measure N s qubit = (Except.error e, s') →
        s'.rand = s.rand)) :=
  ⟨fun h => by rw [h], rfl, (measure_rand N s qubit).1, (measure_rand N s qubit).2⟩

/-- Witness for claim C7: one gate application keeping the stream, one
deterministic measurement keeping the stream, and one nondeterministic
measurement consuming exactly the head coin. -/
theorem C7_witness :
    run_program 1 [Sum.inl (Gate.H 0), Sum.inr 0] (StabilizerSimulator.new 1 [true]) =
      run_program 1 [Sum.inl (Gate.H 0), Sum.inr 0] (StabilizerSimulator.new 1 [true]) ∧
    (apply_gate (StabilizerSimulator.new 1 [true]) (Gate.H 0)).rand = [true] ∧
    (StabilizerSimulator.measure 1 (StabilizerSimulator.new 1 [true]) 0).2.rand =
      [true] ∧
    (StabilizerSimulator.mk [⟨true, [false], [true]⟩]
       [⟨false, [true], [false]⟩] []).rand =
      (apply_gate (StabilizerSimulator.new 1 [true]) (Gate.H 0)).rand.tail :=
  ⟨(C7_rand_confinement 1 (StabilizerSimulator.new 1 [true]) (Gate.H 0) 0
      [Sum.inl (Gate.H 0), Sum.inr 0] [true] [true]).1 rfl,
    (C7_rand_confinement 1 (StabilizerSimulator.new 1 [true]) (Gate.H 0) 0 []
      [true] [true]).2.1,
    (C7_rand_confinement 1 (StabilizerSimulator.new 1 [true]) (Gate.H 0) 0 []
      [true] [true]).2.2.1 (by decide),
    ((C7_rand_confinement 1 (apply_gate (StabilizerSimulator.new 1 [true]) (Gate.H 0))
      (Gate.H 0) 0 [] [] []).2.2.2 (by decide)).1 true _ rfl⟩

/-- Claim C8: rowsum is atomic on failure: when it returns an error, the
row_h it hands back (the final value of the mutable argument) is exactly
the row_h it was given. -/
theorem C8_rowsum_atomic (row_h row_i : TableauGeneratorRow) (e : String)
    (h : (rowsum row_h row_i).1 = Except.error e) :
    (rowsum row_h row_i).2 = row_h :=
  (rowsum_error_frame row_h row_i e h).1

/-- Witness for claim C8: multiplying X into Z has an odd i-exponent, so
rowsum errors, and the returned row is the untouched Z row. -/
theorem C8_witness :
    (rowsum ⟨false, [false], [true]⟩ ⟨false, [true], [false]⟩).2 =
      ⟨false, [false], [true]⟩ :=
  C8_rowsum_atomic ⟨false, [false], [true]⟩ ⟨false, [true], [false]⟩
    non_stabilizer_msg rfl

/-- Claim C9: measure never returns the internal error of the unreachable
none-branch of nondeterministic_measurement: every error measure can return
is the rowsum invariant-violation message, which differs from that
branch's message. -/
theorem C9_no_x_error_unreachable (N : Nat) (s : StabilizerSimulator) (qubit : Nat) :
    (StabilizerSimulator.measure N s qubit).1 ≠ Except.error no_x_stabilizer_msg := by
  intro h
  have hmsg := measure_error_msg N s qubit _ h
  exact absurd hmsg (by decide)

/-- Witness for claim C9 at a concrete state. -/
theorem C9_witness :
    (StabilizerSimulator.measure 1 (StabilizerSimulator.new 1 []) 0).1 ≠
      Except.error no_x_stabilizer_msg :=
  C9_no_x_error_unreachable 1 (StabilizerSimulator.new 1 []) 0

/-- Claim C10: applying H on the same in-range qubit twice returns every
stabilizer and destabilizer row (phase, x bits and z bits) to its previous
value; the random source is untouched, so the whole simulator state is
restored. -/
theorem C10_H_involution (N : Nat) (s : StabilizerSimulator) (q : Nat)
    (hWF : simWF N s) (hq : q < N) :
    apply_gate (apply_gate s (Gate.H q)) (Gate.H q) = s := by
  obtain ⟨h1, h2, h3, h4⟩ := hWF
  have hmap : ∀ (l : List TableauGeneratorRow), (∀ r ∈ l, rowWF N r) →
      (l.map (apply_gate_row (Gate.H q))).map (apply_gate_row (Gate.H q)) = l :=
    fun l hl => map_involution _ l (fun a ha => apply_H_H_row N q hq a (hl a ha))
  cases s with
  | mk st de rd =>
    simp only [apply_gate]
    rw [hmap st h3, hmap de h4]

/-- Witness for claim C10: double H on qubit 1 of the fresh two-qubit
state. -/
theorem C10_witness :
    apply_gate (apply_gate (StabilizerSimulator.new 2 []) (Gate.H 1)) (Gate.H 1) =
      StabilizerSimulator.new 2 [] :=
  C10_H_involution 2 (StabilizerSimulator.new 2 []) 1 (by decide) (by decide)
